import Mathlib

/-!
Verification of the aces-analytics scraping and aggregation pipeline.

This file gives a shallow embedding, in Lean 4, of the pure computational
core of the repository:

* `build_team_totals` and `normalize_team_name`
  (src/scrape_tournament_threat_board.py),
* `aggregate_team_stats_by_id` (src/build_tournament_csv.py),
* the game-id derivation in both `main` functions
  (src/scrape_gc_schedules.py and src/newsiteshitz/gcscraper/scrape_gc_schedules.py),
* `parse_schedule_page` (src/newsiteshitz/gcscraper/scrape_gc_schedules.py),
* the row classification of `parse_box_score` (src/scrape_gc_schedules.py),
* `apply_extra_stats_from_summary` with `clean_name` and
  `find_batting_rows_for_token` (src/scrape_gc_schedules.py),
* the extra-stats merging inside `extract_batting`, including a faithful
  model of `difflib.get_close_matches` / `SequenceMatcher.ratio`
  (src/newsiteshitz/gcscraper/scrape_gc_schedules.py),
* the per-player derived hitting statistics of `api_team_hitting`
  (src/gc_api_server.py).

Python `Optional[int]` becomes `Option Int`, Python floats become `ℚ`,
Python dicts become association lists (insertion order preserved, new keys
appended at the end, exactly as CPython dicts behave).
-/

namespace AcesAnalytics

/-! ## Python string primitives

Structural (kernel-reducible) models of the Python string methods the
source uses. -/
/-- Python `str.lower()` (ASCII case folding suffices for this code base). -/
def pyLower (s : String) : String := ⟨s.data.map Char.toLower⟩

/-- Python `str.upper()`. -/
def pyUpper (s : String) : String := ⟨s.data.map Char.toUpper⟩

/-- Python `str.strip()` with no argument: trim whitespace at both ends. -/
def pyStrip (s : String) : String :=
  ⟨((s.data.dropWhile Char.isWhitespace).reverse.dropWhile Char.isWhitespace).reverse⟩

/-- Python `str.startswith(p)`. -/
def pyStartsWith (s p : String) : Bool := p.data.isPrefixOf s.data

/-- Python slicing `s[n:]` (drop the first `n` characters). -/
def pyDrop (s : String) (n : Nat) : String := ⟨s.data.drop n⟩

/-! ## Team/season aggregation (scrape_tournament_threat_board.py) -/
/-- The `Game` dataclass of src/scrape_tournament_threat_board.py (lines 42-50). -/
structure Game where
  game_id : String
  tournament_name : Option String
  status : String
  home_team : String
  away_team : String
  home_score : Option Int
  away_score : Option Int
deriving DecidableEq

/-- One value of the per-team stats dict `{"G": _, "W": _, "L": _, "RS": _, "RA": _}`
used by `build_team_totals`. -/
structure Stats where
  G : Nat
  W : Nat
  L : Nat
  RS : Int
  RA : Int
deriving DecidableEq

/-- The fresh stats entry `{"G": 0, "W": 0, "L": 0, "RS": 0, "RA": 0}`. -/
def Stats.zero : Stats := ⟨0, 0, 0, 0, 0⟩

/-- Componentwise addition of stats deltas. -/
def Stats.add (s t : Stats) : Stats :=
  ⟨s.G + t.G, s.W + t.W, s.L + t.L, s.RS + t.RS, s.RA + t.RA⟩

instance : Add Stats := ⟨Stats.add⟩

/-- The totals dict of `build_team_totals`: team name to stats, in insertion
order (a CPython dict preserves insertion order and appends new keys). -/
abbrev TotalsMap := List (String × Stats)

/-- Dict membership test plus value retrieval, `teams[team]`. -/
def lookupTeam : TotalsMap → String → Option Stats
  | [], _ => none
  | (k, s) :: t, key => if k = key then some s else lookupTeam t key

/-- The nested helper `ensure` of `build_team_totals` (lines 316-318):
`if team not in teams: teams[team] = {"G": 0, ...}`. A new key goes to the
end of the dict. -/
def ensure (m : TotalsMap) (team : String) : TotalsMap :=
  match lookupTeam m team with
  | some _ => m
  | none => m ++ [(team, Stats.zero)]

/-- An in-place `teams[team][field] += n` update, expressed as adding a stats
delta to the entry of `team` (the first, and by construction only, entry of
that key). A missing key is left untouched (the source only updates keys it
just ensured). -/
def addStat : TotalsMap → String → Stats → TotalsMap
  | [], _, _ => []
  | (k, s) :: t, team, δ =>
    if k = team then (k, s + δ) :: t else (k, s) :: addStat t team δ

/-- Model of `normalize_team_name` (src/scrape_tournament_threat_board.py lines 288-297):
strip, then drop a leading `"vs. "`, `"vs "` or `"@ "` prefix (checked
case-insensitively, first match wins), stripping again afterwards. -/
def normalize_team_name (name : String) : String :=
  if name = "" then ""
  else
    let n := pyStrip name
    let lower := pyLower n
    if pyStartsWith lower "vs. " then pyStrip (pyDrop n 4)
    else if pyStartsWith lower "vs " then pyStrip (pyDrop n 3)
    else if pyStartsWith lower "@ " then pyStrip (pyDrop n 2)
    else n

/-- The unconditional updates of the `build_team_totals` loop body for a
counted game (lines 329-338): ensure both teams, `G += 1` for both, then the
four `RS`/`RA` updates, in source order. -/
def scoreUpdates (m : TotalsMap) (home away : String) (hs aw : Int) : TotalsMap :=
  addStat (addStat (addStat (addStat (addStat (addStat
    (ensure (ensure m home) away)
    home ⟨1, 0, 0, 0, 0⟩) away ⟨1, 0, 0, 0, 0⟩)
    home ⟨0, 0, 0, hs, 0⟩) home ⟨0, 0, 0, 0, aw⟩)
    away ⟨0, 0, 0, aw, 0⟩) away ⟨0, 0, 0, 0, hs⟩

/-- The full update a counted game performs (lines 329-348): the score
updates followed by the winner/loser `W`/`L` increments (none for a tie). -/
def processCounted (m : TotalsMap) (home away : String) (hs aw : Int) : TotalsMap :=
  if hs > aw then
    addStat (addStat (scoreUpdates m home away hs aw) home ⟨0, 1, 0, 0, 0⟩)
      away ⟨0, 0, 1, 0, 0⟩
  else if hs < aw then
    addStat (addStat (scoreUpdates m home away hs aw) away ⟨0, 1, 0, 0, 0⟩)
      home ⟨0, 0, 1, 0, 0⟩
  else scoreUpdates m home away hs aw

/-- Processing of a single game inside the `for g in games` loop of
`build_team_totals` (lines 320-348): skip non-final games and games with a
missing score, otherwise apply `processCounted` to the normalized names. -/
def processGame (m : TotalsMap) (g : Game) : TotalsMap :=
  if pyLower g.status ≠ "final" then m
  else
    match g.home_score, g.away_score with
    | some hs, some aw =>
      processCounted m (normalize_team_name g.home_team)
        (normalize_team_name g.away_team) hs aw
    | _, _ => m

/-- Model of `build_team_totals` (src/scrape_tournament_threat_board.py lines 300-350). -/
def build_team_totals (games : List Game) : TotalsMap :=
  games.foldl processGame []

/-- A game is counted by `build_team_totals` iff its status is final and both
scores are present (the two `continue` guards of the loop). -/
def gameCounted (g : Game) : Bool :=
  pyLower g.status = "final" && g.home_score.isSome && g.away_score.isSome

/-! ## aggregate_team_stats_by_id (build_tournament_csv.py) -/
/-- A row of the `GCGamesTmp4` query in `aggregate_team_stats_by_id`
(src/build_tournament_csv.py lines 44-56). Scores are nullable ints. -/
structure GameRow where
  GameDate : String
  HomeTeamID : String
  AwayTeamID : String
  HomeScore : Option Int
  AwayScore : Option Int
  SourceTeamID : String
deriving DecidableEq

/-- Python `x or 0` on a nullable int: `None` gives 0, and an int gives
itself (`0 or 0` is 0 as well). -/
def orZero : Option Int → Int
  | none => 0
  | some v => v

/-- The body of the `for g in rows` loop of `aggregate_team_stats_by_id`
(lines 62-82), acting on the accumulator `(G, W, L, RS, RA)`. -/
def aggStep (team_id : String) (acc : Stats) (g : GameRow) : Stats :=
  let home_score := orZero g.HomeScore
  let away_score := orZero g.AwayScore
  let is_home := g.HomeTeamID = team_id
  let team_runs := if is_home then home_score else away_score
  let opp_runs := if is_home then away_score else home_score
  let acc := { acc with RS := acc.RS + team_runs, RA := acc.RA + opp_runs, G := acc.G + 1 }
  if team_runs > opp_runs then { acc with W := acc.W + 1 }
  else if team_runs < opp_runs then { acc with L := acc.L + 1 }
  else acc

/-- Model of `aggregate_team_stats_by_id` (src/build_tournament_csv.py lines 39-84).
The SQL `WHERE SourceTeamID = ?` clause becomes a filter on the row set. -/
def aggregate_team_stats_by_id (rows : List GameRow) (team_id : String) : Stats :=
  (rows.filter (fun g => g.SourceTeamID = team_id)).foldl (aggStep team_id) Stats.zero

/-! ## Game-id derivation (both scraper `main` functions) -/
/-- The id composition of src/newsiteshitz/gcscraper/scrape_gc_schedules.py
line 606: `game_id = f"{date_part}_{home_id}_vs_{away_id}"`. -/
def deriveGameIdNS (date home_id away_id : String) : String :=
  date ++ "_" ++ home_id ++ "_vs_" ++ away_id

/-- The id composition of src/scrape_gc_schedules.py line 653:
`f"{g['date']}_{home_team}_vs_{away_team}".replace(" ", "_")`. -/
def deriveGameIdSrc (date home_team away_team : String) : String :=
  ⟨(date ++ "_" ++ home_team ++ "_vs_" ++ away_team).data.map
    (fun c => if c = ' ' then '_' else c)⟩

/-- Home/away role resolution and id derivation for one schedule entry in the
newsiteshitz `main` (lines 593-606): the opponent id is the constant `""`,
`'HOME'` puts the page team at home, anything else puts it away. -/
def assembleGameIdNS (page_team_id : String) (home_or_away : Option String)
    (game_date : String) : String :=
  let opp_id := ""
  let ids := if home_or_away = some "HOME" then (page_team_id, opp_id)
             else (opp_id, page_team_id)
  deriveGameIdNS game_date ids.1 ids.2

/-- Home/away role resolution and id derivation for one schedule entry in the
src `main` (lines 640-653): `ha` is uppercased with `""` for a missing value,
and the opponent placeholder is `"OPP"`. -/
def assembleGameIdSrc (team_slug : String) (ha : Option String)
    (date : String) : String :=
  let haU := pyUpper (ha.getD "")
  let teams := if haU = "HOME" then (team_slug, "OPP")
               else if haU = "AWAY" then ("OPP", team_slug)
               else (team_slug, "OPP")
  deriveGameIdSrc date teams.1 teams.2

/-! ## Dict machinery for the C10 invariants -/
/-- The key list of a totals dict. -/
def keysOf (m : TotalsMap) : List String := m.map Prod.fst

/-- Sum of a stats projection over all entries of the dict. -/
def sumOf {M : Type} [AddCommMonoid M] (f : Stats → M) (m : TotalsMap) : M :=
  (m.map (fun p => f p.2)).sum

/-- Well-formedness of a totals dict: keys occur at most once (guaranteed by
construction, since `ensure` only appends keys that are absent). -/
def WF (m : TotalsMap) : Prop := (keysOf m).Nodup

/-- A sequence of keyed in-place updates, the normal form of the update
sequence a counted game performs. -/
def applyOps (m : TotalsMap) : List (String × Stats) → TotalsMap
  | [] => m
  | (k, δ) :: rest => applyOps (addStat m k δ) rest

/-- The total stats delta a sequence of updates applies to one key. -/
def totalDelta (ops : List (String × Stats)) (k : String) : Stats :=
  ((ops.filter (fun q => q.1 = k)).map Prod.snd).foldr (fun a b => a + b) Stats.zero

/-! ## The update sequence of one counted game -/
/-- The per-key update deltas a counted final game performs, in source
order: two `G` increments, the four `RS`/`RA` updates, then the winner/loser
updates (absent for a tie). -/
def opsForGame (home away : String) (hs aw : Int) : List (String × Stats) :=
  [(home, ⟨1, 0, 0, 0, 0⟩), (away, ⟨1, 0, 0, 0, 0⟩),
   (home, ⟨0, 0, 0, hs, 0⟩), (home, ⟨0, 0, 0, 0, aw⟩),
   (away, ⟨0, 0, 0, aw, 0⟩), (away, ⟨0, 0, 0, 0, hs⟩)] ++
  (if hs > aw then [(home, ⟨0, 1, 0, 0, 0⟩), (away, ⟨0, 0, 1, 0, 0⟩)]
   else if hs < aw then [(away, ⟨0, 1, 0, 0, 0⟩), (home, ⟨0, 0, 1, 0, 0⟩)]
   else [])

/-! ## Schedule parsing (newsiteshitz/gcscraper/scrape_gc_schedules.py)

`parse_schedule_page` takes the already-CSS-selected page structure: month
sections (header span text plus the sibling section's day rows), day rows
(date text plus event links), events (href, title text, score-or-time
text). A section whose header has no title span, or whose header has no
following section `div`, contributes nothing, which we model as a section
with `monthSpan = none` or an empty `dayRows` list. -/
/-- One `a.ScheduleListByMonth__event` link: `href` attribute (absent or
empty is skipped), the resolved `event_title` (the empty string when the
title `div`/span is missing) and the score-or-time span text. -/
structure SEvent where
  href : Option String
  title : String
  scoreText : String
deriving DecidableEq

/-- One `div.ScheduleListByMonth__dayRow`: the `dateText` div content
(`none` when the div is missing) and the event links. -/
structure DayRow where
  dayText : Option String
  events : List SEvent
deriving DecidableEq

/-- One month section: the `ScheduleSection__sectionTitle` span text and the
day rows of the sibling section div. -/
structure MonthSection where
  monthSpan : Option String
  dayRows : List DayRow
deriving DecidableEq

/-- One parsed schedule entry, the dict of `parse_schedule_page`. -/
structure SchedEntry where
  game_date : String
  box_score_url : String
  home_or_away : Option String
  our_score : Option Int
  opp_score : Option Int
deriving DecidableEq

/-- Full English month names, the `%B` alternatives of `strptime`. -/
def monthNamesPy : List String :=
  ["January", "February", "March", "April", "May", "June", "July",
   "August", "September", "October", "November", "December"]

/-- Digit run to number. -/
def digitsToNat (l : List Char) : Nat :=
  l.foldl (fun acc c => acc * 10 + (c.toNat - 48)) 0

/-- Python `int(s)`: optional surrounding whitespace, optional sign, one or
more digits (digit-group underscores are not modelled); anything else
raises `ValueError`, modelled as `none`. -/
def pyIntParse (s : String) : Option Int :=
  let l := (s.data.dropWhile Char.isWhitespace).reverse.dropWhile
    Char.isWhitespace |>.reverse
  match l with
  | [] => none
  | '+' :: ds =>
    if ds ≠ [] && ds.all Char.isDigit then some (digitsToNat ds) else none
  | '-' :: ds =>
    if ds ≠ [] && ds.all Char.isDigit then some (-(digitsToNat ds : Int)) else none
  | ds =>
    if ds.all Char.isDigit then some (digitsToNat ds) else none

/-- Month-name matching of `strptime`'s `%B` directive: case-insensitive
full month name; returns the month number and the remaining characters. -/
def matchMonthGo (s : List Char) : Nat → List String → Option (Nat × List Char)
  | _, [] => none
  | i, name :: rest =>
    if (name.data.map Char.toLower).isPrefixOf (s.map Char.toLower) then
      some (i, s.drop name.data.length)
    else matchMonthGo s (i + 1) rest

/-- The `datetime.strptime(month_year, "%B %Y")` call of
`parse_schedule_page` (line 232): a full month name, whitespace, exactly
four digits; the resulting year-0 `datetime` would itself raise
`ValueError`, so year 0000 also yields `none` (the caller catches
`ValueError` and skips). Returns `(month, year)`. -/
def monthYearParse (s : String) : Option (Nat × Nat) :=
  match matchMonthGo s.data 1 monthNamesPy with
  | none => none
  | some (m, rest) =>
    let ws := rest.takeWhile Char.isWhitespace
    let rest2 := rest.dropWhile Char.isWhitespace
    if ws.isEmpty then none
    else if rest2.length = 4 && rest2.all Char.isDigit then
      let y := digitsToNat rest2
      if 1 ≤ y then some (m, y) else none
    else none

/-- Gregorian leap year, as `datetime` uses. -/
def isLeapYear (y : Nat) : Bool :=
  y % 4 = 0 && (y % 100 ≠ 0 || y % 400 = 0)

/-- Days in a month, as `datetime` validates. -/
def daysInMonth (y m : Nat) : Nat :=
  if m = 2 then (if isLeapYear y then 29 else 28)
  else if m = 4 || m = 6 || m = 9 || m = 11 then 30
  else 31

/-- Whether `datetime(year, month, day)` succeeds for a month/year pair that
already passed `strptime` (month 1-12, year 1-9999). -/
def dateValid (y m : Nat) (d : Int) : Bool :=
  1 ≤ d && d ≤ (daysInMonth y m : Int)

/-- Decimal digit character. -/
def digitChar (n : Nat) : Char := Char.ofNat (48 + n)

/-- Zero-padded 4-digit number (years here are at most 9999). -/
def pad4 (n : Nat) : String :=
  ⟨[digitChar (n / 1000 % 10), digitChar (n / 100 % 10),
    digitChar (n / 10 % 10), digitChar (n % 10)]⟩

/-- Zero-padded 2-digit number. -/
def pad2 (n : Nat) : String :=
  ⟨[digitChar (n / 10 % 10), digitChar (n % 10)]⟩

/-- Model of `datetime(...).strftime("%Y-%m-%d")`. -/
def formatDateISO (y m d : Nat) : String :=
  pad4 y ++ "-" ++ pad2 m ++ "-" ++ pad2 d

/-- Python `str.split(sep)` for a one-character separator: keeps empty
pieces, `""` splits to `[""]`. -/
def splitOnChar (sep : Char) : List Char → List (List Char)
  | [] => [[]]
  | c :: rest =>
    let r := splitOnChar sep rest
    if c = sep then [] :: r
    else
      match r with
      | [] => [[c]]
      | h :: t => (c :: h) :: t

/-- The score-text parsing of one event (lines 282-292): `"W n-m"` or
`"L n-m"` yields the two ints, an unparsable pair resets both to `None`. -/
def parseScorePair (score_text : String) : Option Int × Option Int :=
  if score_text ≠ "" &&
      (pyStartsWith score_text "W " || pyStartsWith score_text "L ") then
    match splitOnChar '-' (pyDrop score_text 2).data with
    | [a, b] =>
      match pyIntParse ⟨a⟩, pyIntParse ⟨b⟩ with
      | some x, some y => (some x, some y)
      | _, _ => (none, none)
    | _ => (none, none)
  else (none, none)

/-- Processing of one event link (lines 260-300): a missing or empty href
is skipped; the title prefix decides home/away; the score text is parsed. -/
def parseEvent (full_date : String) (ev : SEvent) : Option SchedEntry :=
  match ev.href with
  | none => none
  | some raw =>
    if raw = "" then none
    else
      let box_score_url := "https://web.gc.com" ++ raw
      let ha : Option String :=
        if pyStartsWith ev.title "vs." then some "HOME"
        else if pyStartsWith ev.title "@" then some "AWAY"
        else none
      let scores := parseScorePair ev.scoreText
      some ⟨full_date, box_score_url, ha, scores.1, scores.2⟩

/-- Processing of one day row (lines 244-300): a missing date text or an
unparsable day number is skipped (`continue`), but the `datetime(...)`
construction on line 254 is unguarded — an invalid calendar day raises
`ValueError`, which escapes `parse_schedule_page`. -/
def processDayRow (y m : Nat) (row : DayRow) : Except String (List SchedEntry) :=
  match row.dayText with
  | none => .ok []
  | some dtext =>
    match pyIntParse dtext with
    | none => .ok []
    | some d =>
      if dateValid y m d then
        .ok (row.events.filterMap (parseEvent (formatDateISO y m d.toNat)))
      else .error "ValueError: day is out of range for month"

/-- Fold of `processDayRow` over a section's day rows, aborting on the
first raised exception. -/
def goDayRows (y m : Nat) : List DayRow → Except String (List SchedEntry)
  | [] => .ok []
  | row :: rest => do
    let es ← processDayRow y m row
    let rs ← goDayRows y m rest
    return es ++ rs

/-- Processing of one month section (lines 226-243): a missing title span
or an unparsable `"%B %Y"` header skips the section (`continue`). -/
def processSection (sec : MonthSection) : Except String (List SchedEntry) :=
  match sec.monthSpan with
  | none => .ok []
  | some mtext =>
    match monthYearParse mtext with
    | none => .ok []
    | some (m, y) => goDayRows y m sec.dayRows

/-- Fold of `processSection` over the page's sections. -/
def goSections : List MonthSection → Except String (List SchedEntry)
  | [] => .ok []
  | sec :: rest => do
    let es ← processSection sec
    let rs ← goSections rest
    return es ++ rs

/-- Model of `parse_schedule_page` (src/newsiteshitz/gcscraper/scrape_gc_schedules.py
lines 214-302), with a raised exception modelled as `Except.error`. -/
def parse_schedule_page (sections : List MonthSection) :
    Except String (List SchedEntry) :=
  goSections sections

/-! ## Box-score row extraction (src/scrape_gc_schedules.py) -/
/-- Python whitespace-run squeezing: consecutive spaces collapse to one
(used after mapping every whitespace character to a space). -/
def squeezeSpaces : List Char → List Char
  | [] => []
  | [c] => [c]
  | c1 :: c2 :: rest =>
    if c1 = ' ' && c2 = ' ' then squeezeSpaces (c2 :: rest)
    else c1 :: squeezeSpaces (c2 :: rest)

/-- Model of `normalize_text` (src/scrape_gc_schedules.py lines 42-45):
`re.sub(r"\s+", " ", t).strip()` — collapse whitespace runs to single
spaces, then strip. -/
def normalize_text (s : String) : String :=
  pyStrip ⟨squeezeSpaces (s.data.map (fun c => if c.isWhitespace then ' ' else c))⟩

/-- The `int(float(v))` fallback of `to_int`: simple decimal notation
`[sign] digits [. digits]` or `[sign] . digits`, truncated toward zero
(exponent notation, `inf` and `nan` are not modelled; they do not occur in
box-score cells). -/
def pyFloatTrunc (s : List Char) : Option Int :=
  let signed : Int × List Char :=
    match s with
    | '+' :: rest => (1, rest)
    | '-' :: rest => (-1, rest)
    | l => (1, l)
  let ip := signed.2.takeWhile Char.isDigit
  let rest := signed.2.dropWhile Char.isDigit
  match rest with
  | [] => if ip.isEmpty then none else some (signed.1 * digitsToNat ip)
  | '.' :: fp =>
    if fp.all Char.isDigit && (!ip.isEmpty || !fp.isEmpty) then
      some (signed.1 * digitsToNat ip)
    else none
  | _ => none

/-- Model of `to_int` (src/scrape_gc_schedules.py lines 48-60): strip; `""` and
`"-"` give 0; try `int`, then `int(float(...))`, else 0 — never raises. -/
def to_int (s : String) : Int :=
  let v := pyStrip s
  if v = "" || v = "-" then 0
  else
    match pyIntParse v with
    | some n => n
    | none =>
      match pyFloatTrunc v.data with
      | some n => n
      | none => 0

/-- A batting dict of `parse_box_score` (lines 399-414). -/
structure BatRow where
  PlayerName : String
  AB : Int
  R : Int
  H : Int
  RBI : Int
  BB : Int
  SO : Int
  Doubles : Int
  Triples : Int
  HomeRuns : Int
  StolenBases : Int
  TotalBases : Int
deriving DecidableEq

/-- A pitching dict of `parse_box_score` (lines 419-432). -/
structure PitRow where
  PitcherName : String
  IP : String
  HAllowed : Int
  RAllowed : Int
  ERAllowed : Int
  BBAllowed : Int
  Strikeouts : Int
  PitchesThrown : Option Int
  StrikesThrown : Option Int
  BattersFaced : Option Int
deriving DecidableEq

/-- The batting dict built from a (normalized) cell row of length ≥ 7. -/
def mkBatRow (cells : List String) : BatRow :=
  ⟨cells.getD 0 "", to_int (cells.getD 1 ""), to_int (cells.getD 2 ""),
    to_int (cells.getD 3 ""), to_int (cells.getD 4 ""), to_int (cells.getD 5 ""),
    to_int (cells.getD 6 ""),
    if 7 < cells.length then to_int (cells.getD 7 "") else 0,
    if 8 < cells.length then to_int (cells.getD 8 "") else 0,
    if 9 < cells.length then to_int (cells.getD 9 "") else 0,
    if 10 < cells.length then to_int (cells.getD 10 "") else 0,
    if 11 < cells.length then to_int (cells.getD 11 "") else 0⟩

/-- The pitching dict built from a (normalized) cell row of length ≥ 7. -/
def mkPitRow (cells : List String) : PitRow :=
  ⟨cells.getD 0 "", cells.getD 1 "", to_int (cells.getD 2 ""),
    to_int (cells.getD 3 ""), to_int (cells.getD 4 ""), to_int (cells.getD 5 ""),
    to_int (cells.getD 6 ""),
    if 7 < cells.length then some (to_int (cells.getD 7 "")) else none,
    if 8 < cells.length then some (to_int (cells.getD 8 "")) else none,
    if 9 < cells.length then some (to_int (cells.getD 9 "")) else none⟩

/-- The body of the `for row in html_rows` loop of `parse_box_score`
(lines 388-432): skip cell-less rows; rows with ≥ 7 cells are appended to
the batting list; rows with ≥ 7 cells whose second cell contains `"."` are
appended to the pitching list (two independent `if` statements). -/
def boxRowStep (acc : List BatRow × List PitRow) (rawCells : List String) :
    List BatRow × List PitRow :=
  if rawCells.isEmpty then acc
  else
    let text_cells := rawCells.map normalize_text
    let acc1 :=
      if 7 ≤ text_cells.length then (acc.1 ++ [mkBatRow text_cells], acc.2)
      else acc
    if 7 ≤ text_cells.length && '.' ∈ (text_cells.getD 1 "").data then
      (acc1.1, acc1.2 ++ [mkPitRow text_cells])
    else acc1

/-- The row-classification core of `parse_box_score`
(src/scrape_gc_schedules.py lines 341-437), over the extracted AG-Grid cell
texts of each row. -/
def parse_box_score (htmlRows : List (List String)) :
    List BatRow × List PitRow :=
  htmlRows.foldl boxRowStep ([], [])

/-- Inclusion condition for the batting list: a non-empty row with at least
7 cells. -/
def batCond (r : List String) : Bool :=
  !r.isEmpty && decide (7 ≤ (r.map normalize_text).length)

/-- Inclusion condition for the pitching list: a non-empty row with at
least 7 cells whose second cell contains a decimal point. -/
def pitCond (r : List String) : Bool :=
  !r.isEmpty && (decide (7 ≤ (r.map normalize_text).length)
    && decide ('.' ∈ ((r.map normalize_text).getD 1 "").data))

/-! ## Per-player hitting derivations (src/gc_api_server.py) -/
/-- One `GROUP BY PlayerName` aggregate row of the `api_team_hitting`
query; the SQL `SUM`s are nullable. -/
structure PlayerAggRow where
  PlayerName : String
  AB : Option Int
  R : Option Int
  H : Option Int
  RBI : Option Int
  BB : Option Int
  SO : Option Int
  Doubles : Option Int
  Triples : Option Int
  HomeRuns : Option Int
  StolenBases : Option Int
deriving DecidableEq

/-- The derived per-player line of `api_team_hitting`. Rate stats are exact
rationals standing for the Python floats; the final `round(-, 3)` applied
when serializing is not modelled (0.0 rounds to 0.0). -/
structure HittingLine where
  name : String
  AB : Int
  R : Int
  H : Int
  RBI : Int
  BB : Int
  SO : Int
  Doubles : Int
  Triples : Int
  HomeRuns : Int
  StolenBases : Int
  singles : Int
  TB : Int
  PA : Int
  AVG : ℚ
  OBP : ℚ
  SLG : ℚ
  OPS : ℚ
  ISO : ℚ
deriving DecidableEq

/-- The per-player computation of `api_team_hitting`
(src/gc_api_server.py lines 128-179): `x or 0` null-coercion, singles
clamped at 0, total bases from the breakdown, and each rate stat guarded
by a positive-denominator test. -/
def api_player_line (row : PlayerAggRow) : HittingLine :=
  let AB := orZero row.AB
  let R := orZero row.R
  let H := orZero row.H
  let RBI := orZero row.RBI
  let BB := orZero row.BB
  let SO := orZero row.SO
  let doubles := orZero row.Doubles
  let triples := orZero row.Triples
  let HR := orZero row.HomeRuns
  let SB := orZero row.StolenBases
  let singles0 := H - (doubles + triples + HR)
  let singles := if singles0 < 0 then 0 else singles0
  let TB := singles + doubles * 2 + triples * 3 + HR * 4
  let PA := AB + BB
  let AVG : ℚ := if AB > 0 then (H : ℚ) / (AB : ℚ) else 0
  let OB := H + BB
  let OBP : ℚ := if PA > 0 then (OB : ℚ) / (PA : ℚ) else 0
  let SLG : ℚ := if AB > 0 then (TB : ℚ) / (AB : ℚ) else 0
  let OPS := OBP + SLG
  let ISO := SLG - AVG
  ⟨row.PlayerName, AB, R, H, RBI, BB, SO, doubles, triples, HR, SB,
    singles, TB, PA, AVG, OBP, SLG, OPS, ISO⟩

/-! ## difflib (CPython Lib/difflib.py)

The extra-stats merger of newsiteshitz/gcscraper/scrape_gc_schedules.py
resolves fuzzy names with `difflib.get_close_matches(raw_name, player_names,
n=1, cutoff=0.6)`. We embed `SequenceMatcher` for `isjunk=None` (the
`get_close_matches` configuration): `bjunk` is then always empty, so the
junk predicate below is the constant-false function; the `autojunk`
popularity pruning of `b2j` (active only for sequences of length ≥ 200) is
embedded as in the source. Ratios are exact rationals standing for the
Python floats; the float cutoff `0.6` is modelled as `3/5` (for the name
lengths involved, `2*M/T` can never fall strictly between the float `0.6`
and `3/5`, so the comparisons agree). -/
/-- Append an occurrence index to `b2j[elt]` (`dict.setdefault` plus
`append`; a new key goes to the end). -/
def b2jAppend : List (Char × List Nat) → Char → Nat → List (Char × List Nat)
  | [], c, i => [(c, [i])]
  | (c1, js) :: rest, c, i =>
    if c1 = c then (c1, js ++ [i]) :: rest else (c1, js) :: b2jAppend rest c i

/-- Model of `SequenceMatcher.__chain_b`: positions of each element of `b`, with
popular elements deleted when `autojunk` applies (`len(b) >= 200`). -/
def b2jPruned (b : List Char) : List (Char × List Nat) :=
  let base := b.enum.foldl (fun acc p => b2jAppend acc p.2 p.1) []
  if 200 ≤ b.length then
    let ntest := b.length / 100 + 1
    base.filter (fun q => !(decide (ntest < q.2.length)))
  else base

/-- Lookup in the `b2j` dict (`b2j.get(elt, [])`). -/
def b2jGet (b2j : List (Char × List Nat)) (c : Char) : List Nat :=
  match b2j.find? (fun q => q.1 = c) with
  | some q => q.2
  | none => []

/-- Lookup in the running-length dict (`j2len.get(j-1, 0)`). -/
def j2lenGet (l : List (Nat × Nat)) (k : Nat) : Nat :=
  match l.find? (fun p => p.1 = k) with
  | some p => p.2
  | none => 0

/-- Accumulator of the inner loop of `find_longest_match`: the new
running-length dict and the best block found so far. -/
structure FLMAcc where
  newj2len : List (Nat × Nat)
  besti : Nat
  bestj : Nat
  bestsize : Nat

/-- The inner `for j in b2j.get(a[i], nothing)` loop of
`find_longest_match`: skip `j < blo`, break at `j >= bhi`, extend the run
ending at `(i, j)` and track the strictly-best size. -/
def flmInner (i blo bhi : Nat) (j2len : List (Nat × Nat)) :
    List Nat → FLMAcc → FLMAcc
  | [], st => st
  | j :: rest, st =>
    if j < blo then flmInner i blo bhi j2len rest st
    else if bhi ≤ j then st
    else
      let k := (if j = 0 then 0 else j2lenGet j2len (j - 1)) + 1
      let st1 : FLMAcc := { st with newj2len := (j, k) :: st.newj2len }
      let st2 :=
        if st1.bestsize < k then
          { st1 with besti := i + 1 - k, bestj := j + 1 - k, bestsize := k }
        else st1
      flmInner i blo bhi j2len rest st2

/-- The outer `for i in range(alo, ahi)` loop of `find_longest_match`. -/
def flmLoop (a : List Char) (b2j : List (Char × List Nat)) (blo bhi : Nat) :
    List Nat → List (Nat × Nat) → Nat × Nat × Nat → Nat × Nat × Nat
  | [], _, best => best
  | i :: is_, j2len, best =>
    let st := flmInner i blo bhi j2len (b2jGet b2j (a.getD i ' '))
      ⟨[], best.1, best.2.1, best.2.2⟩
    flmLoop a b2j blo bhi is_ st.newj2len (st.besti, st.bestj, st.bestsize)

/-- The leftward extension loops of `find_longest_match` (fuel-bounded; the
initial `besti` is enough fuel since `besti` decreases each step). -/
def extLeft (a b : List Char) (junk : Char → Bool) (wantJunk : Bool)
    (alo blo : Nat) : Nat → Nat × Nat × Nat → Nat × Nat × Nat
  | 0, best => best
  | fuel + 1, (bi, bj, bs) =>
    if alo < bi ∧ blo < bj ∧ junk (b.getD (bj - 1) ' ') = wantJunk
        ∧ a.getD (bi - 1) ' ' = b.getD (bj - 1) ' ' then
      extLeft a b junk wantJunk alo blo fuel (bi - 1, bj - 1, bs + 1)
    else (bi, bj, bs)

/-- The rightward extension loops of `find_longest_match` (fuel-bounded;
`ahi` is enough fuel since `besti + bestsize` increases each step). -/
def extRight (a b : List Char) (junk : Char → Bool) (wantJunk : Bool)
    (ahi bhi : Nat) : Nat → Nat × Nat × Nat → Nat × Nat × Nat
  | 0, best => best
  | fuel + 1, (bi, bj, bs) =>
    if bi + bs < ahi ∧ bj + bs < bhi ∧ junk (b.getD (bj + bs) ' ') = wantJunk
        ∧ a.getD (bi + bs) ' ' = b.getD (bj + bs) ' ' then
      extRight a b junk wantJunk ahi bhi fuel (bi, bj, bs + 1)
    else (bi, bj, bs)

/-- Model of `SequenceMatcher.find_longest_match(alo, ahi, blo, bhi)`: the dynamic
best-block loop followed by the four extension loops (non-junk left/right,
junk left/right). -/
def find_longest_match (a b : List Char) (junk : Char → Bool)
    (b2j : List (Char × List Nat)) (alo ahi blo bhi : Nat) :
    Nat × Nat × Nat :=
  let best := flmLoop a b2j blo bhi (List.range' alo (ahi - alo)) []
    (alo, blo, 0)
  let best := extLeft a b junk false alo blo best.1 best
  let best := extRight a b junk false ahi bhi ahi best
  let best := extLeft a b junk true alo blo best.1 best
  extRight a b junk true ahi bhi ahi best

/-- Total size of all matching blocks (`get_matching_blocks` recursion;
adjacent-block merging does not change the total). Fuel-bounded: each
recursive window is strictly smaller in `ahi - alo`, so `a.length + 1`
suffices at the top level. -/
def matchSumGo (a b : List Char) (junk : Char → Bool)
    (b2j : List (Char × List Nat)) :
    Nat → Nat → Nat → Nat → Nat → Nat
  | 0, _, _, _, _ => 0
  | fuel + 1, alo, ahi, blo, bhi =>
    let ijk := find_longest_match a b junk b2j alo ahi blo bhi
    if ijk.2.2 = 0 then 0
    else
      ijk.2.2 + matchSumGo a b junk b2j fuel alo ijk.1 blo ijk.2.1
        + matchSumGo a b junk b2j fuel (ijk.1 + ijk.2.2) ahi (ijk.2.1 + ijk.2.2) bhi

/-- Model of `sum(size for _, _, size in get_matching_blocks())` for
`SequenceMatcher(None, a, b)`. -/
def sequenceMatches (a b : List Char) : Nat :=
  matchSumGo a b (fun _ => false) (b2jPruned b) (a.length + 1) 0 a.length 0 b.length

/-- Model of `difflib._calculate_ratio`: `2*matches/length`, or 1.0 for two empty
sequences. -/
def calcRatioQ (nmatch length : Nat) : ℚ :=
  if length ≠ 0 then 2 * (nmatch : ℚ) / (length : ℚ) else 1

/-- Model of `SequenceMatcher.ratio()` for `SequenceMatcher(None, a, b)`. -/
def seqRatioQ (a b : List Char) : ℚ :=
  calcRatioQ (sequenceMatches a b) (a.length + b.length)

/-- Availability of an element: the `avail` dict entry if present, else
the full count in `b` (`fullbcount`). -/
def availGet (avail : List (Char × Int)) (fullb : List Char) (elt : Char) : Int :=
  match avail.find? (fun p => p.1 = elt) with
  | some p => p.2
  | none => (fullb.count elt : Int)

/-- The matching loop of `SequenceMatcher.quick_ratio`: count elements of
`a` whose availability in `b` (tracked by the `avail` dict) is positive. -/
def quickRatioLoop (fullb : List Char) :
    List Char → List (Char × Int) → Nat → Nat
  | [], _, nmatch => nmatch
  | elt :: rest, avail, nmatch =>
    let numb := availGet avail fullb elt
    let avail1 : List (Char × Int) := (elt, numb - 1) :: avail
    if (0 : Int) < numb then quickRatioLoop fullb rest avail1 (nmatch + 1)
    else quickRatioLoop fullb rest avail1 nmatch

/-- Model of `SequenceMatcher.quick_ratio()`. -/
def quickRatioQ (a b : List Char) : ℚ :=
  calcRatioQ (quickRatioLoop b a [] 0) (a.length + b.length)

/-- Model of `SequenceMatcher.real_quick_ratio()`. -/
def realQuickRatioQ (a b : List Char) : ℚ :=
  calcRatioQ (min a.length b.length) (a.length + b.length)

/-- Model of `heapq.nlargest(1, result)` on `(ratio, name)` pairs: the greatest pair
under lexicographic tuple order (Python string order is code-point
lexicographic, as is Lean's), first occurrence among equals. -/
def nlargest1 (l : List (ℚ × String)) : List (ℚ × String) :=
  match l with
  | [] => []
  | x :: rest =>
    [rest.foldl (fun best q =>
      if best.1 < q.1 ∨ (best.1 = q.1 ∧ best.2 < q.2) then q else best) x]

/-- Model of `difflib.get_close_matches(word, possibilities, n=1, cutoff)`: filter
by the three ratios (each an upper bound of the next), keep the single
largest scored candidate. Note `set_seq2(word)`/`set_seq1(x)`: `x` is the
first sequence, `word` the second. -/
def get_close_matches1 (word : String) (possibilities : List String)
    (cutoff : ℚ) : List String :=
  let result := possibilities.filterMap (fun x =>
    if cutoff ≤ realQuickRatioQ x.data word.data
        ∧ cutoff ≤ quickRatioQ x.data word.data
        ∧ cutoff ≤ seqRatioQ x.data word.data then
      some (seqRatioQ x.data word.data, x)
    else none)
  (nlargest1 result).map Prod.snd

/-! ## Extra-stats merger (src/scrape_gc_schedules.py) -/
/-- Trailing-count extraction shared by both mergers. Both
`re.search(r"\s+(\d+)$", tok)` (src, lines 324-330) and
`re.match(r"(.+?)(?:\s+(\d+))?$", text)` (newsiteshitz, line 392) split a
token into the part before the maximal whitespace run preceding a maximal
trailing digit run, plus that count; a token without such a suffix keeps
its whole text and has no count. -/
def splitTrailingCount (s : List Char) : List Char × Option Nat :=
  let rev := s.reverse
  let dsRev := rev.takeWhile Char.isDigit
  if dsRev.isEmpty then (s, none)
  else
    let rest := rev.drop dsRev.length
    let wsRev := rest.takeWhile Char.isWhitespace
    if wsRev.isEmpty then (s, none)
    else ((rest.drop wsRev.length).reverse, some (digitsToNat dsRev.reverse))

/-- Model of `re.sub(r"#\d+", "", -)`: drop every `#` that is followed by at least
one digit, together with that digit run; the flag records that a digit run
is being consumed. -/
def stripJerseyGo : Bool → List Char → List Char
  | _, [] => []
  | inDigits, c :: rest =>
    if inDigits && c.isDigit then stripJerseyGo true rest
    else if c = '#' && ((rest.head?.map Char.isDigit).getD false) then
      stripJerseyGo true rest
    else c :: stripJerseyGo false rest

/-- The nested `clean_name` helper of `apply_extra_stats_from_summary`
(src/scrape_gc_schedules.py lines 259-267): drop everything from the first
`(`, drop `#<digits>` jersey tokens, collapse whitespace. -/
def clean_name (name : String) : String :=
  if name = "" then ""
  else
    normalize_text ⟨stripJerseyGo false (name.data.takeWhile (fun c => c ≠ '('))⟩

/-- Append a row index to a cleaned-name bucket (dict `setdefault` plus
`append`). Indices model Python object identity of the row dicts. -/
def idxAppend : List (String × List Nat) → String → Nat → List (String × List Nat)
  | [], k, i => [(k, [i])]
  | (k1, is_) :: rest, k, i =>
    if k1 = k then (k1, is_ ++ [i]) :: rest else (k1, is_) :: idxAppend rest k i

/-- The `cleaned_index` dict (lines 269-275): lower-cased cleaned player
name to the list of matching row indices; rows with an empty cleaned name
are not indexed. -/
def cleanedIndex (batting_rows : List BatRow) : List (String × List Nat) :=
  batting_rows.enum.foldl
    (fun idx p =>
      let c := clean_name p.2.PlayerName
      if c = "" then idx else idxAppend idx (pyLower c) p.1) []

/-- Python `str.split()` with no argument: split on whitespace runs, no
empty pieces. -/
def pySplitWSGo : List Char → List Char → List String
  | [], cur => if cur.isEmpty then [] else [⟨cur.reverse⟩]
  | c :: rest, cur =>
    if c.isWhitespace then
      if cur.isEmpty then pySplitWSGo rest []
      else (⟨cur.reverse⟩ : String) :: pySplitWSGo rest []
    else pySplitWSGo rest (c :: cur)

/-- Python `str.split()`. -/
def pySplitWS (s : String) : List String := pySplitWSGo s.data []

/-- Python substring containment `w in s`. -/
def isSubstr (w s : String) : Bool :=
  (List.range (s.data.length + 1)).any (fun i => w.data.isPrefixOf (s.data.drop i))

/-- Model of `find_batting_rows_for_token` (src/scrape_gc_schedules.py lines
277-293): exact cleaned-name bucket first; otherwise every bucket whose
cleaned name contains all token words as substrings. Returns row indices. -/
def find_batting_rows_for_token (idx : List (String × List Nat))
    (token_name : String) : List Nat :=
  let token_clean := pyLower (clean_name token_name)
  if token_clean = "" then []
  else
    match idx.find? (fun q => q.1 = token_clean) with
    | some q => q.2
    | none =>
      let token_words := pySplitWS token_clean
      idx.foldl (fun acc q =>
        if token_words.all (fun w => isSubstr w q.1) then acc ++ q.2
        else acc) []

/-- The extra-stat fields the summary merger updates. -/
inductive ExtraField
  | doubles
  | triples
  | homeRuns
  | stolenBases
  | totalBases
deriving DecidableEq

/-- The `label_to_field` dict (lines 246-252). -/
def labelToField (label : String) : Option ExtraField :=
  if label = "2B" then some .doubles
  else if label = "3B" then some .triples
  else if label = "HR" then some .homeRuns
  else if label = "SB" then some .stolenBases
  else if label = "TB" then some .totalBases
  else none

/-- Model of `row[field] = (row.get(field) or 0) + count` for one field (the fields
are ints here, and `x or 0 = x` on ints that default to 0). -/
def addCountToField (r : BatRow) (f : ExtraField) (count : Int) : BatRow :=
  match f with
  | .doubles => { r with Doubles := r.Doubles + count }
  | .triples => { r with Triples := r.Triples + count }
  | .homeRuns => { r with HomeRuns := r.HomeRuns + count }
  | .stolenBases => { r with StolenBases := r.StolenBases + count }
  | .totalBases => { r with TotalBases := r.TotalBases + count }

/-- Apply the count to every matched row (`for row in matched_rows`),
identified by index. -/
def updateRowsAt (batting_rows : List BatRow) (targets : List Nat)
    (f : ExtraField) (count : Int) : List BatRow :=
  targets.foldl
    (fun rs i => rs.enum.map
      (fun p => if p.1 = i then addCountToField p.2 f count else p.2))
    batting_rows

/-- Model of `re.sub(r",$", "", tok)`: remove one trailing comma. -/
def stripOneTrailingComma (s : String) : String :=
  match s.data.reverse with
  | ',' :: rest => ⟨rest.reverse⟩
  | _ => s

/-- Processing of one player token of a stat line
(src/scrape_gc_schedules.py lines 315-338). -/
def applySummaryToken (batting_rows : List BatRow) (field : ExtraField)
    (tokRaw : String) : List BatRow :=
  let tok := normalize_text tokRaw
  if tok = "" then batting_rows
  else
    let tok2 := stripOneTrailingComma tok
    let split := splitTrailingCount tok2.data
    let count : Int := (split.2.getD 1 : Nat)
    let name_part := pyStrip ⟨split.1⟩
    if name_part = "" then batting_rows
    else
      updateRowsAt batting_rows
        (find_batting_rows_for_token (cleanedIndex batting_rows) name_part)
        field count

/-- Processing of one stat line (`row_div`) of the extra-stats panel
(lines 299-338): the first span is the label, the rest are player tokens;
unknown labels are ignored. The source builds `cleaned_index` once before
the loop; since token application never changes a `PlayerName`, rebuilding
it per token (as `applySummaryToken` does) yields the same index. -/
def applySummaryLine (batting_rows : List BatRow) (spans : List String) :
    List BatRow :=
  match spans with
  | [] => batting_rows
  | label_span :: toks =>
    let label_key := pyStrip ⟨(normalize_text label_span).data.filter (fun c => c ≠ ':')⟩
    match labelToField label_key with
    | none => batting_rows
    | some field => toks.foldl (fun rs t => applySummaryToken rs field t) batting_rows

/-- Model of `apply_extra_stats_from_summary` (src/scrape_gc_schedules.py lines
212-338): fold all stat lines of all panels over the batting rows; an
empty row list is returned unchanged. -/
def apply_extra_stats_from_summary (batting_rows : List BatRow)
    (panels : List (List (List String))) : List BatRow :=
  if batting_rows.isEmpty then batting_rows
  else panels.foldl (fun rs panel => panel.foldl applySummaryLine rs) batting_rows

/-! ## Extra-stats merging inside extract_batting
(src/newsiteshitz/gcscraper/scrape_gc_schedules.py) -/
/-- A batting dict of the newsiteshitz `extract_batting` (lines 355-374). -/
structure NBatRow where
  GameID : String
  TeamID : String
  TeamName : String
  HomeOrAway : String
  Opponent : String
  PlayerName : String
  Position : String
  AB : Int
  R : Int
  H : Int
  RBI : Int
  BB : Int
  SO : Int
  Doubles : Int
  Triples : Int
  HomeRuns : Int
  StolenBases : Int
  TotalBases : Int
deriving DecidableEq

/-- The `.rstrip(',')` applied to the span text before the regex match. -/
def tokenTextOf (textRaw : String) : String :=
  ⟨(textRaw.data.reverse.dropWhile (fun c => c = ',')).reverse⟩

/-- The `raw_name` of one extra-stat span: `parts.group(1).strip()`. -/
def extractRawName (text : String) : String :=
  pyStrip ⟨(splitTrailingCount text.data).1⟩

/-- The first `bd['PlayerName'] == player_match` row gets the assignment
for the known labels (`2B`, `3B`, `HR`), then the loop breaks
(lines 414-425); the count is assigned, not added. -/
def assignFirstNRow : List NBatRow → String → String → Int → List NBatRow
  | [], _, _, _ => []
  | bd :: rest, pm, label, cnt =>
    if bd.PlayerName = pm then
      (if label = "2B" then { bd with Doubles := cnt }
       else if label = "3B" then { bd with Triples := cnt }
       else if label = "HR" then { bd with HomeRuns := cnt }
       else bd) :: rest
    else bd :: assignFirstNRow rest pm label cnt

/-- Processing of one extra-stat span inside `extract_batting`
(lines 389-425): optional trailing count (default 1), exact name match
first, then `difflib.get_close_matches(-, -, n=1, cutoff=0.6)`; an
unmatched token is dropped with a warning. The span text arrives stripped
(`get_text(strip=True)`) and `.rstrip(',')` is applied first; an empty
text fails the `(.+?)` regex and is skipped. -/
def applyExtraBattingToken (batting_stats : List NBatRow) (stat_label : String)
    (textRaw : String) : List NBatRow :=
  let text : String := tokenTextOf textRaw
  if text.data.isEmpty then batting_stats
  else
    let raw_name := extractRawName text
    let stat_count : Int := ((splitTrailingCount text.data).2.getD 1 : Nat)
    let player_names := batting_stats.map (fun bd => bd.PlayerName)
    let player_match : Option String :=
      if raw_name ∈ player_names then some raw_name
      else (get_close_matches1 raw_name player_names (3 / 5)).head?
    match player_match with
    | none => batting_stats
    | some pm => assignFirstNRow batting_stats pm stat_label stat_count

/-! ## C10: conservation and W+L ≤ G invariants -/
/-- The per-team invariant of C10: wins plus losses never exceed games. -/
def InvWL (m : TotalsMap) : Prop := ∀ p ∈ m, p.2.W + p.2.L ≤ p.2.G

/-- Number of games the totals builder counts. -/
def countedGames (games : List Game) : Nat := (games.filter gameCounted).length

/-! ## Theorems -/

/-! ## Theorems: C1 and C2 (aggregation of scores) -/
/-- A game with a missing home or away score is skipped by the
`build_team_totals` loop. -/
theorem processGame_of_missing (m : TotalsMap) (g : Game)
    (h : g.home_score = none ∨ g.away_score = none) : processGame m g = m := by
  unfold processGame
  split
  · rfl
  · rcases h with h | h
    · rw [h]
    · rw [h]; cases g.home_score <;> rfl

/-- Unfolding equation for stats addition. -/
theorem Stats.add_def (s t : Stats) :
    s + t = ⟨s.G + t.G, s.W + t.W, s.L + t.L, s.RS + t.RS, s.RA + t.RA⟩ := rfl

/-- Stats addition is commutative in its last argument pair. -/
theorem Stats.add_right_comm (a b c : Stats) : a + b + c = a + c + b := by
  simp only [Stats.add_def, Stats.mk.injEq]
  omega

/-- The zero stats entry is a left unit for stats addition. -/
theorem Stats.zero_add (s : Stats) : Stats.zero + s = s := by
  simp [Stats.zero, Stats.add_def]

/-- The loop body of `aggregate_team_stats_by_id` only ever adds to the
accumulator: its effect is the effect on a zero accumulator, added on. -/
theorem aggStep_affine (tid : String) (acc : Stats) (g : GameRow) :
    aggStep tid acc g = acc + aggStep tid Stats.zero g := by
  simp only [aggStep, Stats.zero]
  split_ifs <;> simp [Stats.add_def]

/-- Folding the aggregation step from a shifted accumulator shifts the
result. -/
theorem foldl_aggStep_shift (tid : String) (rows : List GameRow) (z δ : Stats) :
    rows.foldl (aggStep tid) (z + δ) = rows.foldl (aggStep tid) z + δ := by
  induction rows generalizing z with
  | nil => rfl
  | cons r rs ih =>
    simp only [List.foldl_cons]
    rw [aggStep_affine tid (z + δ) r, Stats.add_right_comm, ← aggStep_affine tid z r, ih]

/-- Prepending a row whose `SourceTeamID` matches adds that row's
contribution to the aggregate. -/
theorem aggregate_cons_matching (rows : List GameRow) (row : GameRow) (tid : String)
    (hsrc : row.SourceTeamID = tid) :
    aggregate_team_stats_by_id (row :: rows) tid
      = aggregate_team_stats_by_id rows tid + aggStep tid Stats.zero row := by
  unfold aggregate_team_stats_by_id
  rw [List.filter_cons_of_pos (by simp [hsrc]), List.foldl_cons,
    aggStep_affine tid Stats.zero row, foldl_aggStep_shift, Stats.zero_add]

/-- C1, counterexample. A `GCGamesTmp4` row with `HomeScore` and `AwayScore`
both NULL, aggregated by `aggregate_team_stats_by_id` for its own
`SourceTeamID`, is counted: `G` becomes 1 (a 0-0 tie), although the claim
says a game with an absent score contributes nothing to `G` under both
aggregation entry points. -/
theorem C1_counterexample :
    aggregate_team_stats_by_id
        [⟨"2026-02-14", "QQpfJzkSUSyd", "", none, none, "QQpfJzkSUSyd"⟩]
        "QQpfJzkSUSyd" = ⟨1, 0, 0, 0, 0⟩ ∧
    aggregate_team_stats_by_id ([] : List GameRow) "QQpfJzkSUSyd" = Stats.zero := by
  constructor <;> rfl

/-- C1, amended. Games with a missing home or away score are excluded
entirely by `build_team_totals` (deleting such a game from the input list
leaves the totals unchanged), but not by `aggregate_team_stats_by_id`: there
a missing score is read as 0 via `g.HomeScore or 0`, and a matching row with
both scores NULL is still counted, as a 0-0 tie, adding exactly
`{G: 1, W: 0, L: 0, RS: 0, RA: 0}` to the aggregate. -/
theorem C1_amended (gs1 gs2 : List Game) (g : Game)
    (hg : g.home_score = none ∨ g.away_score = none)
    (rows : List GameRow) (row : GameRow) (tid : String)
    (h1 : row.HomeScore = none) (h2 : row.AwayScore = none)
    (h3 : row.SourceTeamID = tid) :
    build_team_totals (gs1 ++ g :: gs2) = build_team_totals (gs1 ++ gs2) ∧
    aggregate_team_stats_by_id (row :: rows) tid
      = aggregate_team_stats_by_id rows tid + ⟨1, 0, 0, 0, 0⟩ := by
  constructor
  · unfold build_team_totals
    rw [List.foldl_append, List.foldl_append, List.foldl_cons,
      processGame_of_missing _ g hg]
  · rw [aggregate_cons_matching rows row tid h3]
    congr 1
    simp [aggStep, h1, h2, orZero, Stats.zero]

/-- Witness for `C1_amended` at a concrete scheduled (score-less) game and a
concrete NULL-score database row. -/
theorem C1_amended_witness :
    build_team_totals
        [⟨"g0", none, "Scheduled", "Alpha", "Beta", none, none⟩]
      = build_team_totals [] ∧
    aggregate_team_stats_by_id [⟨"d", "T", "", none, none, "T"⟩] "T"
      = aggregate_team_stats_by_id [] "T" + ⟨1, 0, 0, 0, 0⟩ := by
  simpa using C1_amended [] [] ⟨"g0", none, "Scheduled", "Alpha", "Beta", none, none⟩
    (Or.inl rfl) [] ⟨"d", "T", "", none, none, "T"⟩ "T" rfl rfl rfl

/-- C2: score conservation and tie handling of both aggregation entry
points. A 7-3 final game credits the home side `{G:1,W:1,L:0,RS:7,RA:3}`
and the away side `{G:1,W:0,L:1,RS:3,RA:7}`; a 5-5 final game credits both
sides `{G:1,W:0,L:0}` with `RS`/`RA` equal to 5 on each side (symmetric). -/
theorem C2_score_conservation_and_ties :
    (lookupTeam (build_team_totals
        [⟨"g1", none, "Final", "Alpha", "Beta", some 7, some 3⟩]) "Alpha"
      = some ⟨1, 1, 0, 7, 3⟩) ∧
    (lookupTeam (build_team_totals
        [⟨"g1", none, "Final", "Alpha", "Beta", some 7, some 3⟩]) "Beta"
      = some ⟨1, 0, 1, 3, 7⟩) ∧
    (lookupTeam (build_team_totals
        [⟨"g2", none, "Final", "Alpha", "Beta", some 5, some 5⟩]) "Alpha"
      = some ⟨1, 0, 0, 5, 5⟩) ∧
    (lookupTeam (build_team_totals
        [⟨"g2", none, "Final", "Alpha", "Beta", some 5, some 5⟩]) "Beta"
      = some ⟨1, 0, 0, 5, 5⟩) ∧
    (aggregate_team_stats_by_id [⟨"d", "H", "A", some 7, some 3, "H"⟩] "H"
      = ⟨1, 1, 0, 7, 3⟩) ∧
    (aggregate_team_stats_by_id [⟨"d", "H", "A", some 7, some 3, "A"⟩] "A"
      = ⟨1, 0, 1, 3, 7⟩) ∧
    (aggregate_team_stats_by_id [⟨"d", "H", "A", some 5, some 5, "H"⟩] "H"
      = ⟨1, 0, 0, 5, 5⟩) := by
  refine ⟨by decide, by decide, by decide, by decide, by decide, by decide, by decide⟩

/-- Stats addition is associative. -/
theorem Stats.add_assoc (a b c : Stats) : a + b + c = a + (b + c) := by
  simp only [Stats.add_def, Stats.mk.injEq]
  omega

/-- The zero stats entry is a right unit for stats addition. -/
theorem Stats.add_zero (s : Stats) : s + Stats.zero = s := by
  simp [Stats.zero, Stats.add_def]

theorem lookupTeam_cons (k1 : String) (s1 : Stats) (t : TotalsMap) (j : String) :
    lookupTeam ((k1, s1) :: t) j = if k1 = j then some s1 else lookupTeam t j := rfl

theorem addStat_cons (k1 : String) (s1 : Stats) (t : TotalsMap)
    (team : String) (δ : Stats) :
    addStat ((k1, s1) :: t) team δ
      = if k1 = team then (k1, s1 + δ) :: t else (k1, s1) :: addStat t team δ := rfl

theorem lookupTeam_of_mem_keys {m : TotalsMap} {k : String}
    (h : k ∈ keysOf m) : (lookupTeam m k).isSome := by
  induction m with
  | nil => simp [keysOf] at h
  | cons hd t ih =>
    obtain ⟨k1, s1⟩ := hd
    simp only [keysOf, List.map_cons, List.mem_cons] at h
    by_cases hk : k1 = k
    · simp [lookupTeam_cons, hk]
    · rcases h with h | h
      · exact absurd h.symm hk
      · simpa [lookupTeam_cons, hk] using ih h

theorem mem_keys_of_lookupTeam {m : TotalsMap} {k : String} {s : Stats}
    (h : lookupTeam m k = some s) : k ∈ keysOf m := by
  induction m with
  | nil => simp [lookupTeam] at h
  | cons hd t ih =>
    obtain ⟨k1, s1⟩ := hd
    rw [lookupTeam_cons] at h
    by_cases hk : k1 = k
    · simp [keysOf, hk]
    · rw [if_neg hk] at h
      simp only [keysOf, List.map_cons, List.mem_cons]
      exact Or.inr (ih h)

theorem mem_of_lookupTeam {m : TotalsMap} {k : String} {s : Stats}
    (h : lookupTeam m k = some s) : (k, s) ∈ m := by
  induction m with
  | nil => simp [lookupTeam] at h
  | cons hd t ih =>
    obtain ⟨k1, s1⟩ := hd
    rw [lookupTeam_cons] at h
    by_cases hk : k1 = k
    · obtain rfl : s1 = s := by simpa [hk] using h
      exact List.mem_cons.mpr (Or.inl (by rw [hk]))
    · rw [if_neg hk] at h
      exact List.mem_cons_of_mem _ (ih h)

theorem keysOf_mem {m : TotalsMap} {p : String × Stats} (h : p ∈ m) :
    p.1 ∈ keysOf m := List.mem_map_of_mem _ h

theorem mem_of_wf_lookupTeam {m : TotalsMap} (hwf : WF m) {p : String × Stats}
    (h : p ∈ m) : lookupTeam m p.1 = some p.2 := by
  induction m with
  | nil => simp at h
  | cons hd t ih =>
    obtain ⟨k1, s1⟩ := hd
    have hnd : k1 ∉ keysOf t ∧ (keysOf t).Nodup := by
      simpa [WF, keysOf, List.nodup_cons] using hwf
    have hk : k1 ∉ keysOf t := hnd.1
    have hwf' : WF t := hnd.2
    rcases List.mem_cons.mp h with rfl | h
    · simp [lookupTeam_cons]
    · have hne : k1 ≠ p.1 := fun he => hk (he ▸ keysOf_mem h)
      simpa [lookupTeam_cons, hne] using ih hwf' h

/-- Keys are unchanged by an in-place stats update. -/
theorem keysOf_addStat (m : TotalsMap) (k : String) (δ : Stats) :
    keysOf (addStat m k δ) = keysOf m := by
  induction m with
  | nil => rfl
  | cons hd t ih =>
    obtain ⟨k1, s1⟩ := hd
    rw [addStat_cons]
    by_cases hk : k1 = k
    · simp [addStat_cons, hk, keysOf]
    · simp only [hk, if_false, keysOf, List.map_cons]
      simp [keysOf] at ih ⊢
      exact ih

theorem lookupTeam_addStat_self (m : TotalsMap) (k : String) (δ : Stats) :
    lookupTeam (addStat m k δ) k = (lookupTeam m k).map (fun s => s + δ) := by
  induction m with
  | nil => rfl
  | cons hd t ih =>
    obtain ⟨k1, s1⟩ := hd
    rw [addStat_cons]
    by_cases hk : k1 = k
    · simp [lookupTeam_cons, hk]
    · simp [lookupTeam_cons, hk, ih]

theorem lookupTeam_addStat_ne (m : TotalsMap) (k : String) (δ : Stats)
    {j : String} (hj : j ≠ k) :
    lookupTeam (addStat m k δ) j = lookupTeam m j := by
  induction m with
  | nil => rfl
  | cons hd t ih =>
    obtain ⟨k1, s1⟩ := hd
    rw [addStat_cons]
    by_cases hk : k1 = k
    · have h1 : ¬(k1 = j) := fun h => hj (h.symm.trans hk)
      simp [lookupTeam_cons, hk, h1, Ne.symm hj]
    · by_cases hdj : k1 = j <;> simp [lookupTeam_cons, hk, hdj, ih, hj, Ne.symm hj]

theorem mem_ensure {m : TotalsMap} {k : String} {p : String × Stats}
    (h : p ∈ ensure m k) : p ∈ m ∨ p = (k, Stats.zero) := by
  unfold ensure at h
  rcases hl : lookupTeam m k with _ | s <;> rw [hl] at h
  · rcases List.mem_append.mp h with h | h
    · exact Or.inl h
    · simpa using Or.inr (List.mem_singleton.mp h)
  · exact Or.inl h

theorem keysOf_ensure_mem (m : TotalsMap) (k : String) :
    k ∈ keysOf (ensure m k) := by
  unfold ensure
  rcases hl : lookupTeam m k with _ | s
  · simp [keysOf]
  · exact mem_keys_of_lookupTeam hl

theorem keysOf_ensure_mono {m : TotalsMap} {j : String} (k : String)
    (h : j ∈ keysOf m) : j ∈ keysOf (ensure m k) := by
  unfold ensure
  rcases lookupTeam m k with _ | s
  · simp only [keysOf, List.map_append, List.mem_append]
    exact Or.inl h
  · exact h

theorem wf_ensure {m : TotalsMap} (hwf : WF m) (k : String) : WF (ensure m k) := by
  unfold ensure
  rcases hl : lookupTeam m k with _ | s
  · have hk : k ∉ keysOf m := by
      intro hmem
      have := lookupTeam_of_mem_keys hmem
      rw [hl] at this
      simp at this
    have hnd : (keysOf m ++ [k]).Nodup := by
      rw [List.nodup_append]
      refine ⟨hwf, List.nodup_singleton k, ?_⟩
      intro a ha hak
      exact hk ((List.mem_singleton.mp hak) ▸ ha)
    simpa [WF, keysOf] using hnd
  · exact hwf

theorem lookupTeam_ensure_of_mem {m : TotalsMap} {j : String} (k : String)
    (h : j ∈ keysOf m) : lookupTeam (ensure m k) j = lookupTeam m j := by
  unfold ensure
  rcases lookupTeam m k with _ | s
  · induction m with
    | nil => simp [keysOf] at h
    | cons hd t ih =>
      simp only [keysOf, List.map_cons, List.mem_cons] at h
      by_cases hj : hd.1 = j
      · simp [lookupTeam, hj]
      · rcases h with h | h
        · exact absurd h.symm hj
        · simpa [lookupTeam, hj] using ih h
  · rfl

theorem totalDelta_nil (k : String) : totalDelta [] k = Stats.zero := rfl

theorem totalDelta_cons_self (k : String) (δ : Stats) (rest : List (String × Stats)) :
    totalDelta ((k, δ) :: rest) k = δ + totalDelta rest k := by
  simp [totalDelta]

theorem totalDelta_cons_ne {k j : String} (hk : k ≠ j) (δ : Stats)
    (rest : List (String × Stats)) :
    totalDelta ((k, δ) :: rest) j = totalDelta rest j := by
  simp [totalDelta, hk]

theorem keysOf_applyOps (ops : List (String × Stats)) (m : TotalsMap) :
    keysOf (applyOps m ops) = keysOf m := by
  induction ops generalizing m with
  | nil => rfl
  | cons q rest ih =>
    obtain ⟨k, δ⟩ := q
    rw [applyOps, ih, keysOf_addStat]

theorem lookupTeam_applyOps (ops : List (String × Stats)) (m : TotalsMap)
    (j : String) :
    lookupTeam (applyOps m ops) j
      = (lookupTeam m j).map (fun s => s + totalDelta ops j) := by
  induction ops generalizing m with
  | nil =>
    cases h : lookupTeam m j <;>
      simp [applyOps, h, totalDelta_nil, Stats.add_zero]
  | cons q rest ih =>
    obtain ⟨k, δ⟩ := q
    by_cases hk : k = j
    · subst hk
      rw [applyOps, ih, lookupTeam_addStat_self, totalDelta_cons_self]
      cases h : lookupTeam m k <;> simp [h, Stats.add_assoc]
    · rw [applyOps, ih, lookupTeam_addStat_ne _ _ _ (fun h => hk h.symm),
        totalDelta_cons_ne hk]

theorem sumOf_addStat {M : Type} [AddCommMonoid M] (f : Stats → M)
    (hf : ∀ a b, f (a + b) = f a + f b)
    (m : TotalsMap) (k : String) (δ : Stats) (hk : k ∈ keysOf m) :
    sumOf f (addStat m k δ) = sumOf f m + f δ := by
  induction m with
  | nil => simp [keysOf] at hk
  | cons hd t ih =>
    obtain ⟨k1, s1⟩ := hd
    rw [addStat_cons]
    by_cases hhd : k1 = k
    · simp only [hhd, if_true, sumOf, List.map_cons, List.sum_cons, hf]
      rw [add_assoc, add_comm (f δ)]
      rw [add_assoc]
    · simp only [keysOf, List.map_cons, List.mem_cons] at hk
      rcases hk with hk | hk
      · exact absurd hk.symm hhd
      · simp only [hhd, if_false, sumOf, List.map_cons, List.sum_cons] at ih ⊢
        rw [ih hk, add_assoc]

theorem sumOf_ensure {M : Type} [AddCommMonoid M] (f : Stats → M)
    (hz : f Stats.zero = 0) (m : TotalsMap) (k : String) :
    sumOf f (ensure m k) = sumOf f m := by
  unfold ensure
  rcases lookupTeam m k with _ | s <;> simp [sumOf, hz]

theorem sumOf_applyOps {M : Type} [AddCommMonoid M] (f : Stats → M)
    (hf : ∀ a b, f (a + b) = f a + f b)
    (ops : List (String × Stats)) (m : TotalsMap)
    (hmem : ∀ q ∈ ops, q.1 ∈ keysOf m) :
    sumOf f (applyOps m ops) = sumOf f m + (ops.map (fun q => f q.2)).sum := by
  induction ops generalizing m with
  | nil => simp [applyOps]
  | cons q rest ih =>
    obtain ⟨k, δ⟩ := q
    rw [applyOps, ih (addStat m k δ)
        (fun q hq => by
          rw [keysOf_addStat]
          exact hmem q (List.mem_cons_of_mem _ hq)),
      sumOf_addStat f hf m k δ (hmem (k, δ) (List.mem_cons_self _ _))]
    simp [add_assoc]

/-- On a counted game, `processCounted` is the ensure-ensure prelude
followed by the update sequence `opsForGame`. -/
theorem processCounted_eq_applyOps (m : TotalsMap) (home away : String)
    (hs aw : Int) :
    processCounted m home away hs aw =
      applyOps (ensure (ensure m home) away) (opsForGame home away hs aw) := by
  unfold processCounted opsForGame
  rcases lt_trichotomy hs aw with h | h | h
  · have h1 : ¬(hs > aw) := by omega
    rw [if_neg h1, if_neg h1, if_pos h, if_pos h]
    rfl
  · have h1 : ¬(hs > aw) := by omega
    have h2 : ¬(hs < aw) := by omega
    rw [if_neg h1, if_neg h1, if_neg h2, if_neg h2, List.append_nil]
    rfl
  · have h1 : hs > aw := h
    rw [if_pos h1, if_pos h1]
    rfl

/-- On a counted game, `processGame` reduces to `processCounted`. -/
theorem processGame_counted_eq (m : TotalsMap) (g : Game) (hs aw : Int)
    (hstat : pyLower g.status = "final")
    (hh : g.home_score = some hs) (ha : g.away_score = some aw) :
    processGame m g =
      processCounted m (normalize_team_name g.home_team)
        (normalize_team_name g.away_team) hs aw := by
  unfold processGame
  rw [if_neg (by simp [hstat]), hh, ha]

theorem totalDelta_append (l₁ l₂ : List (String × Stats)) (j : String) :
    totalDelta (l₁ ++ l₂) j = totalDelta l₁ j + totalDelta l₂ j := by
  induction l₁ with
  | nil => simp [totalDelta_nil, Stats.zero_add]
  | cons q rest ih =>
    obtain ⟨k, δ⟩ := q
    by_cases hk : k = j
    · subst hk
      rw [List.cons_append, totalDelta_cons_self, totalDelta_cons_self, ih,
        Stats.add_assoc]
    · rw [List.cons_append, totalDelta_cons_ne hk, totalDelta_cons_ne hk, ih]

/-- The combined delta a counted game applies to any single key keeps
`W + L ≤ G` (the winner and loser keys each get one `G` and at most one of
`W`/`L`; a key that is both home and away gets two of each). -/
theorem totalDelta_opsForGame_good (home away j : String) (hs aw : Int) :
    (totalDelta (opsForGame home away hs aw) j).W
      + (totalDelta (opsForGame home away hs aw) j).L
      ≤ (totalDelta (opsForGame home away hs aw) j).G := by
  rcases lt_trichotomy hs aw with h | h | h
  · have h1 : ¬(hs > aw) := by omega
    rw [opsForGame, if_neg h1, if_pos h]
    by_cases hh : home = j <;> by_cases ha : away = j <;>
      simp [totalDelta_append, totalDelta, hh, ha, Stats.add_def, Stats.zero]
  · have h1 : ¬(hs > aw) := by omega
    have h2 : ¬(hs < aw) := by omega
    rw [opsForGame, if_neg h1, if_neg h2, List.append_nil]
    by_cases hh : home = j <;> by_cases ha : away = j <;>
      simp [totalDelta, hh, ha, Stats.add_def, Stats.zero]
  · have h1 : hs > aw := h
    rw [opsForGame, if_pos h1]
    by_cases hh : home = j <;> by_cases ha : away = j <;>
      simp [totalDelta_append, totalDelta, hh, ha, Stats.add_def, Stats.zero]

theorem wf_applyOps (ops : List (String × Stats)) {m : TotalsMap} (hwf : WF m) :
    WF (applyOps m ops) := by
  unfold WF
  rw [keysOf_applyOps]
  exact hwf

theorem invWL_ensure {m : TotalsMap} (hinv : InvWL m) (k : String) :
    InvWL (ensure m k) := by
  intro p hp
  rcases mem_ensure hp with h | rfl
  · exact hinv p h
  · simp [Stats.zero]

theorem wf_processCounted {m : TotalsMap} (hwf : WF m) (home away : String)
    (hs aw : Int) : WF (processCounted m home away hs aw) := by
  rw [processCounted_eq_applyOps]
  exact wf_applyOps _ (wf_ensure (wf_ensure hwf home) away)

theorem invWL_processCounted {m : TotalsMap} (hwf : WF m) (hinv : InvWL m)
    (home away : String) (hs aw : Int) :
    InvWL (processCounted m home away hs aw) := by
  rw [processCounted_eq_applyOps]
  intro p hp
  have hwf2 : WF (ensure (ensure m home) away) :=
    wf_ensure (wf_ensure hwf home) away
  have hinv2 : InvWL (ensure (ensure m home) away) :=
    invWL_ensure (invWL_ensure hinv home) away
  have hlk := mem_of_wf_lookupTeam (wf_applyOps _ hwf2) hp
  rw [lookupTeam_applyOps] at hlk
  rcases hbase : lookupTeam (ensure (ensure m home) away) p.1 with _ | s₀
  · rw [hbase] at hlk
    simp at hlk
  · rw [hbase] at hlk
    have hp2 : p.2 = s₀ + totalDelta (opsForGame home away hs aw) p.1 := by
      simpa using hlk.symm
    have hs₀ : s₀.W + s₀.L ≤ s₀.G := hinv2 (p.1, s₀) (mem_of_lookupTeam hbase)
    have hΔ := totalDelta_opsForGame_good home away p.1 hs aw
    rw [hp2]
    simp only [Stats.add_def]
    omega

/-- Key membership for every update of a counted game. -/
theorem opsForGame_keys_mem (m : TotalsMap) (home away : String) (hs aw : Int) :
    ∀ q ∈ opsForGame home away hs aw,
      q.1 ∈ keysOf (ensure (ensure m home) away) := by
  have hhome : home ∈ keysOf (ensure (ensure m home) away) :=
    keysOf_ensure_mono away (keysOf_ensure_mem m home)
  have haway : away ∈ keysOf (ensure (ensure m home) away) :=
    keysOf_ensure_mem (ensure m home) away
  intro q hq
  unfold opsForGame at hq
  rcases List.mem_append.mp hq with h | h
  · simp only [List.mem_cons, List.not_mem_nil, or_false] at h
    rcases h with rfl | rfl | rfl | rfl | rfl | rfl <;> assumption
  · split_ifs at h <;> simp only [List.mem_cons, List.not_mem_nil, or_false] at h
    · rcases h with rfl | rfl <;> assumption
    · rcases h with rfl | rfl <;> assumption

theorem sumOf_processCounted {M : Type} [AddCommMonoid M] (f : Stats → M)
    (hf : ∀ a b, f (a + b) = f a + f b) (hz : f Stats.zero = 0)
    (m : TotalsMap) (home away : String) (hs aw : Int) :
    sumOf f (processCounted m home away hs aw)
      = sumOf f m
        + ((opsForGame home away hs aw).map (fun q => f q.2)).sum := by
  rw [processCounted_eq_applyOps,
    sumOf_applyOps f hf _ _ (opsForGame_keys_mem m home away hs aw),
    sumOf_ensure f hz, sumOf_ensure f hz]

/-- The `G` deltas of a counted game total 2. -/
theorem opsForGame_sumG (home away : String) (hs aw : Int) :
    ((opsForGame home away hs aw).map (fun q => q.2.G)).sum = 2 := by
  rcases lt_trichotomy hs aw with h | h | h
  · have h1 : ¬(hs > aw) := by omega
    rw [opsForGame, if_neg h1, if_pos h]
    simp
  · have h1 : ¬(hs > aw) := by omega
    have h2 : ¬(hs < aw) := by omega
    rw [opsForGame, if_neg h1, if_neg h2, List.append_nil]
    simp
  · rw [opsForGame, if_pos (show hs > aw from h)]
    simp

/-- The `RS` deltas of a counted game total the same as its `RA` deltas. -/
theorem opsForGame_sumRS_eq_sumRA (home away : String) (hs aw : Int) :
    ((opsForGame home away hs aw).map (fun q => q.2.RS)).sum
      = ((opsForGame home away hs aw).map (fun q => q.2.RA)).sum := by
  rcases lt_trichotomy hs aw with h | h | h
  · have h1 : ¬(hs > aw) := by omega
    rw [opsForGame, if_neg h1, if_pos h]
    simp [add_comm]
  · have h1 : ¬(hs > aw) := by omega
    have h2 : ¬(hs < aw) := by omega
    rw [opsForGame, if_neg h1, if_neg h2, List.append_nil]
    simp [add_comm]
  · rw [opsForGame, if_pos (show hs > aw from h)]
    simp [add_comm]

/-- A game that is not counted leaves the totals dict unchanged. -/
theorem processGame_not_counted (m : TotalsMap) (g : Game)
    (h : gameCounted g = false) : processGame m g = m := by
  unfold processGame
  by_cases hstat : pyLower g.status = "final"
  · rw [if_neg (by simp [hstat])]
    rcases hh : g.home_score with _ | hs
    · cases g.away_score <;> rfl
    · rcases ha : g.away_score with _ | aw
      · rfl
      · exfalso
        rw [gameCounted, hstat, hh, ha] at h
        simp at h
  · rw [if_pos (by simp [hstat])]

/-- A counted game carries a final status and two concrete scores. -/
theorem gameCounted_elim {g : Game} (h : gameCounted g = true) :
    pyLower g.status = "final"
      ∧ ∃ hs aw, g.home_score = some hs ∧ g.away_score = some aw := by
  rw [gameCounted] at h
  simp only [Bool.and_eq_true, decide_eq_true_eq, Option.isSome_iff_exists] at h
  obtain ⟨⟨h1, hs, h2⟩, aw, h3⟩ := h
  exact ⟨h1, hs, aw, h2, h3⟩

/-- One step of the totals fold preserves well-formedness, the `W + L ≤ G`
invariant and the two conservation sums. -/
theorem processGame_step (m : TotalsMap) (g : Game) (hwf : WF m)
    (hinv : InvWL m) :
    WF (processGame m g) ∧ InvWL (processGame m g) ∧
    sumOf (fun s => s.G) (processGame m g)
      = sumOf (fun s => s.G) m + (if gameCounted g then 2 else 0) ∧
    (sumOf Stats.RS m = sumOf Stats.RA m →
      sumOf Stats.RS (processGame m g) = sumOf Stats.RA (processGame m g)) := by
  rcases hc : gameCounted g with _ | _
  · rw [processGame_not_counted m g hc]
    exact ⟨hwf, hinv, by simp, fun h => h⟩
  · obtain ⟨hstat, hs, aw, hh, ha⟩ := gameCounted_elim hc
    rw [processGame_counted_eq m g hs aw hstat hh ha]
    refine ⟨wf_processCounted hwf _ _ _ _, invWL_processCounted hwf hinv _ _ _ _,
      ?_, ?_⟩
    · rw [sumOf_processCounted (fun s => s.G) (fun a b => rfl) rfl,
        opsForGame_sumG]
      simp
    · intro hRSRA
      rw [sumOf_processCounted Stats.RS (fun a b => rfl) rfl,
        sumOf_processCounted Stats.RA (fun a b => rfl) rfl,
        hRSRA, opsForGame_sumRS_eq_sumRA]

/-- The fold maintaining all C10 invariants along a game list. -/
theorem foldl_processGame_invariants (games : List Game) :
    ∀ m : TotalsMap, WF m → InvWL m →
      WF (games.foldl processGame m) ∧ InvWL (games.foldl processGame m) ∧
      sumOf (fun s => s.G) (games.foldl processGame m)
        = sumOf (fun s => s.G) m + 2 * countedGames games ∧
      (sumOf Stats.RS m = sumOf Stats.RA m →
        sumOf Stats.RS (games.foldl processGame m)
          = sumOf Stats.RA (games.foldl processGame m)) := by
  induction games with
  | nil => exact fun m hwf hinv => ⟨hwf, hinv, by simp [countedGames], fun h => h⟩
  | cons g gs ih =>
    intro m hwf hinv
    obtain ⟨hwf', hinv', hG', hRS'⟩ := processGame_step m g hwf hinv
    obtain ⟨hwf'', hinv'', hG'', hRS''⟩ := ih (processGame m g) hwf' hinv'
    refine ⟨hwf'', hinv'', ?_, fun h => hRS'' (hRS' h)⟩
    rw [List.foldl_cons, hG'', hG']
    have : countedGames (g :: gs)
        = (if gameCounted g then 1 else 0) + countedGames gs := by
      unfold countedGames
      rcases hc : gameCounted g with _ | _ <;>
        simp [List.filter_cons, hc, Nat.add_comm]
    rw [this]
    rcases gameCounted g
    · simp
    · simp
      omega

/-- C10: in `build_team_totals` output, total runs scored equal total runs
allowed, total games equal twice the number of counted games (each counted
game is credited to two sides), and every team satisfies `W + L ≤ G`. -/
theorem C10_conservation_invariants (games : List Game) :
    sumOf Stats.RS (build_team_totals games)
      = sumOf Stats.RA (build_team_totals games) ∧
    sumOf (fun s => s.G) (build_team_totals games) = 2 * countedGames games ∧
    ∀ p ∈ build_team_totals games, p.2.W + p.2.L ≤ p.2.G := by
  obtain ⟨hwf, hinv, hG, hRS⟩ :=
    foldl_processGame_invariants games [] (by simp [WF, keysOf]) (by simp [InvWL])
  exact ⟨hRS rfl, by simpa [sumOf] using hG, hinv⟩

/-- Witness for `C10_conservation_invariants`: its per-team inequality
discharged at a concrete one-game list and a concrete member entry. -/
theorem C10_conservation_invariants_witness :
    sumOf Stats.RS (build_team_totals
        [⟨"g1", none, "Final", "Alpha", "Beta", some 7, some 3⟩])
      = sumOf Stats.RA (build_team_totals
        [⟨"g1", none, "Final", "Alpha", "Beta", some 7, some 3⟩]) ∧
    (Stats.mk 1 1 0 7 3).W + (Stats.mk 1 1 0 7 3).L ≤ (Stats.mk 1 1 0 7 3).G := by
  refine ⟨(C10_conservation_invariants _).1, ?_⟩
  exact (C10_conservation_invariants
      [⟨"g1", none, "Final", "Alpha", "Beta", some 7, some 3⟩]).2.2
      ("Alpha", ⟨1, 1, 0, 7, 3⟩) (by decide)

/-! ## Theorems: C3 (deterministic game ids) -/
/-- C3: game-id derivation is a deterministic pure function of
`(date, home id, away id)` in both scraper variants — deriving twice from
the same three values gives identical strings — and the assembler gives
equal ids to schedule entries that agree on date and home/away flag under
the same source team. -/
theorem C3_deterministic_game_ids :
    (∀ d h a : String,
      deriveGameIdNS d h a = deriveGameIdNS d h a ∧
      deriveGameIdSrc d h a = deriveGameIdSrc d h a) ∧
    (∀ (tid : String) (ha₁ ha₂ : Option String) (d₁ d₂ : String),
      d₁ = d₂ → ha₁ = ha₂ →
      assembleGameIdNS tid ha₁ d₁ = assembleGameIdNS tid ha₂ d₂) ∧
    (∀ (slug : String) (ha₁ ha₂ : Option String) (d₁ d₂ : String),
      d₁ = d₂ → ha₁ = ha₂ →
      assembleGameIdSrc slug ha₁ d₁ = assembleGameIdSrc slug ha₂ d₂) := by
  refine ⟨fun d h a => ⟨rfl, rfl⟩, ?_, ?_⟩
  · intro tid ha₁ ha₂ d₁ d₂ hd hha; rw [hd, hha]
  · intro slug ha₁ ha₂ d₁ d₂ hd hha; rw [hd, hha]

/-! ## Theorems: C4 (schedule parser date handling) -/
theorem goDayRows_total (y m : Nat) (rows : List DayRow)
    (h : ∀ row ∈ rows, ∀ dtext, row.dayText = some dtext →
      ∀ d, pyIntParse dtext = some d → dateValid y m d = true) :
    ∃ es, goDayRows y m rows = .ok es := by
  induction rows with
  | nil => exact ⟨[], rfl⟩
  | cons row rest ih =>
    obtain ⟨es2, hrest⟩ := ih (fun r hr => h r (List.mem_cons_of_mem _ hr))
    have hrow : ∃ es1, processDayRow y m row = .ok es1 := by
      rcases hdt : row.dayText with _ | dtext
      · exact ⟨[], by simp [processDayRow, hdt]⟩
      · rcases hip : pyIntParse dtext with _ | d
        · exact ⟨[], by simp [processDayRow, hdt, hip]⟩
        · have hv := h row (List.mem_cons_self _ _) dtext hdt d hip
          exact ⟨row.events.filterMap (parseEvent (formatDateISO y m d.toNat)),
            by simp [processDayRow, hdt, hip, hv]⟩
    obtain ⟨es1, hrow⟩ := hrow
    refine ⟨es1 ++ es2, ?_⟩
    rw [goDayRows, hrow, hrest]
    rfl

/-- C4, counterexample. A schedule page whose month header is
`"February 2025"` and whose day row reads `"30"` passes both guarded
parses, so the unguarded `datetime(2025, 2, 30)` raises a `ValueError`
that escapes `parse_schedule_page` — the row is not skipped. -/
theorem C4_counterexample :
    parse_schedule_page [⟨some "February 2025", [⟨some "30", []⟩]⟩]
      = .error "ValueError: day is out of range for month" := by rfl

/-- C4, amended. The parser is total over month headers that fail
`"%B %Y"` parsing and day texts that fail `int()` parsing (both are
skipped), but it is only exception-free when every parseable month/day
combination forms a valid calendar date; a parseable invalid combination
(February 30) raises a `ValueError` that escapes `parse_schedule_page`. -/
theorem C4_amended (sections : List MonthSection)
    (h : ∀ sec ∈ sections, ∀ mtext, sec.monthSpan = some mtext →
      ∀ my, monthYearParse mtext = some my →
      ∀ row ∈ sec.dayRows, ∀ dtext, row.dayText = some dtext →
      ∀ d, pyIntParse dtext = some d → dateValid my.2 my.1 d = true) :
    ∃ entries, parse_schedule_page sections = .ok entries := by
  unfold parse_schedule_page
  induction sections with
  | nil => exact ⟨[], rfl⟩
  | cons sec rest ih =>
    obtain ⟨es2, hrest⟩ := ih (fun s hs => h s (List.mem_cons_of_mem _ hs))
    have hsec : ∃ es1, processSection sec = .ok es1 := by
      rcases hmt : sec.monthSpan with _ | mtext
      · exact ⟨[], by simp [processSection, hmt]⟩
      · rcases hmy : monthYearParse mtext with _ | my
        · exact ⟨[], by simp [processSection, hmt, hmy]⟩
        · obtain ⟨m, y⟩ := my
          obtain ⟨es, hes⟩ := goDayRows_total y m sec.dayRows
            (h sec (List.mem_cons_self _ _) mtext hmt (m, y) hmy)
          exact ⟨es, by simp [processSection, hmt, hmy, hes]⟩
    obtain ⟨es1, hsec⟩ := hsec
    refine ⟨es1 ++ es2, ?_⟩
    rw [goSections, hsec, hrest]
    rfl

/-- Witness for `C4_amended` at a concrete page whose only date
combination (February 28 2025) is valid. -/
theorem C4_amended_witness :
    ∃ entries,
      parse_schedule_page
        [⟨some "February 2025",
          [⟨some "28", [⟨some "/teams/x/game1", "vs. Beta", "W 7-3"⟩]⟩]⟩]
        = .ok entries := by
  apply C4_amended
  intro sec hsec mtext hmt my hmy row hrow dtext hdt d hd
  rw [List.mem_singleton] at hsec
  subst hsec
  obtain rfl : "February 2025" = mtext := Option.some.inj hmt
  have hval : monthYearParse "February 2025" = some (2, 2025) := by decide
  rw [hval] at hmy
  obtain rfl : (2, 2025) = my := Option.some.inj hmy
  rw [List.mem_singleton] at hrow
  subst hrow
  obtain rfl : "28" = dtext := Option.some.inj hdt
  have hip : pyIntParse "28" = some 28 := by decide
  rw [hip] at hd
  obtain rfl : (28 : Int) = d := Option.some.inj hd
  decide

/-- Witness for `C3_deterministic_game_ids` at concrete inputs. -/
theorem C3_deterministic_game_ids_witness :
    assembleGameIdNS "QQpfJzkSUSyd" (some "HOME") "2025-10-15"
      = assembleGameIdNS "QQpfJzkSUSyd" (some "HOME") "2025-10-15" ∧
    assembleGameIdSrc "2025-fall-delmarva-aces-12u-east" (some "away") "October 15 2025"
      = assembleGameIdSrc "2025-fall-delmarva-aces-12u-east" (some "away") "October 15 2025" :=
  ⟨C3_deterministic_game_ids.2.1 "QQpfJzkSUSyd" (some "HOME") (some "HOME")
      "2025-10-15" "2025-10-15" rfl rfl,
    C3_deterministic_game_ids.2.2 "2025-fall-delmarva-aces-12u-east"
      (some "away") (some "away") "October 15 2025" "October 15 2025" rfl rfl⟩

/-! ## Theorems: C5 (box-score row classification) -/
/-- C5, counterexample. A seven-cell row whose second cell is `"5.2"` is
appended to the pitching list and to the batting list: an included row does
not land in exactly one of the two output collections. -/
theorem C5_counterexample :
    (parse_box_score [["P", "5.2", "1", "2", "3", "4", "5"]]).1.length = 1 ∧
    (parse_box_score [["P", "5.2", "1", "2", "3", "4", "5"]]).2.length = 1 := by
  constructor <;> rfl

theorem boxRowStep_cases (acc : List BatRow × List PitRow) (r : List String) :
    boxRowStep acc r
      = (if batCond r then acc.1 ++ [mkBatRow (r.map normalize_text)] else acc.1,
         if pitCond r then acc.2 ++ [mkPitRow (r.map normalize_text)] else acc.2) := by
  by_cases h0 : r = []
  · subst h0
    simp [boxRowStep, batCond, pitCond]
  · by_cases h7 : 7 ≤ r.length
    · by_cases hdot : '.' ∈ ((Option.map normalize_text r[1]?).getD "").data
      · simp [boxRowStep, batCond, pitCond, h0, h7, hdot]
      · simp [boxRowStep, batCond, pitCond, h0, h7, hdot]
    · simp [boxRowStep, batCond, pitCond, h0, h7]

theorem boxRowStep_fold (rows : List (List String)) (b : List BatRow)
    (p : List PitRow) :
    rows.foldl boxRowStep (b, p)
      = (b ++ ((rows.filter batCond).map
            (fun r => mkBatRow (r.map normalize_text))),
         p ++ ((rows.filter pitCond).map
            (fun r => mkPitRow (r.map normalize_text)))) := by
  induction rows generalizing b p with
  | nil => simp
  | cons r rest ih =>
    rw [List.foldl_cons, boxRowStep_cases]
    cases hb : batCond r <;> cases hp : pitCond r <;>
      simp only [hb, hp, Bool.false_eq_true, ite_false, ite_true] <;>
      rw [ih] <;>
      simp [List.filter_cons, hb, hp, List.append_assoc]

/-- C5, amended. Every non-empty extracted row with at least 7 cells is
appended to the batting collection unconditionally (`batCond`), and is
additionally appended to the pitching collection exactly when its second
cell contains a decimal point (`pitCond`) — so a decimal-point row lands in
both collections, not in exactly one. -/
theorem C5_amended (rows : List (List String)) :
    (parse_box_score rows).1
      = ((rows.filter batCond).map (fun r => mkBatRow (r.map normalize_text))) ∧
    (parse_box_score rows).2
      = ((rows.filter pitCond).map (fun r => mkPitRow (r.map normalize_text))) := by
  unfold parse_box_score
  rw [boxRowStep_fold]
  exact ⟨by simp, by simp⟩

/-! ## Theorems: C7 and C8 (derived hitting stats) -/
/-- C7: singles are hits minus extra-base hits clamped at zero, and total
bases are `1B + 2*2B + 3*3B + 4*HR`; in particular H=10, 2B=2, 3B=1, HR=1
gives singles 6 and TB 17. -/
theorem C7_singles_and_total_bases (row : PlayerAggRow) :
    ((api_player_line row).singles
      = max 0 (orZero row.H
          - (orZero row.Doubles + orZero row.Triples + orZero row.HomeRuns)) ∧
     (api_player_line row).TB
      = (api_player_line row).singles + 2 * orZero row.Doubles
          + 3 * orZero row.Triples + 4 * orZero row.HomeRuns) ∧
    (api_player_line ⟨"Demo", some 40, some 0, some 10, some 0, some 0,
        some 0, some 2, some 1, some 1, some 0⟩).singles = 6 ∧
    (api_player_line ⟨"Demo", some 40, some 0, some 10, some 0, some 0,
        some 0, some 2, some 1, some 1, some 0⟩).TB = 17 := by
  refine ⟨⟨?_, ?_⟩, by decide, by decide⟩
  · simp only [api_player_line]
    split_ifs with h
    · exact (max_eq_left (by omega)).symm
    · exact (max_eq_right (by omega)).symm
  · simp only [api_player_line]
    split_ifs <;> omega

/-- C8: every rate stat with a zero denominator is 0.0, and a player
aggregate with AB = 0 and BB = 0 yields AVG = OBP = SLG = OPS = ISO = 0.0
with no exception (the computation is total). -/
theorem C8_rate_stat_zero_guards (row : PlayerAggRow) :
    (orZero row.AB = 0 →
      (api_player_line row).AVG = 0 ∧ (api_player_line row).SLG = 0) ∧
    (orZero row.AB + orZero row.BB = 0 → (api_player_line row).OBP = 0) ∧
    (orZero row.AB = 0 → orZero row.BB = 0 →
      (api_player_line row).AVG = 0 ∧ (api_player_line row).OBP = 0 ∧
      (api_player_line row).SLG = 0 ∧ (api_player_line row).OPS = 0 ∧
      (api_player_line row).ISO = 0) := by
  refine ⟨fun hAB => ?_, fun hPA => ?_, fun hAB hBB => ?_⟩
  · simp only [api_player_line]
    rw [if_neg (by omega), if_neg (by omega)]
    exact ⟨rfl, rfl⟩
  · simp only [api_player_line]
    rw [if_neg (by omega)]
  · simp only [api_player_line]
    rw [if_neg (by omega), if_neg (by omega), if_neg (by omega)]
    refine ⟨rfl, rfl, rfl, by norm_num, by norm_num⟩

/-! ## Theorems: C6 and C9 (extra-stats merging) -/
/-- If every candidate scores below the cutoff, `get_close_matches`
returns no candidate (the filter requires the full ratio to reach the
cutoff). -/
theorem get_close_matches1_of_below (word : String) (poss : List String)
    (cutoff : ℚ) (h : ∀ x ∈ poss, seqRatioQ x.data word.data < cutoff) :
    get_close_matches1 word poss cutoff = [] := by
  unfold get_close_matches1
  have hnil : poss.filterMap (fun x =>
      if cutoff ≤ realQuickRatioQ x.data word.data
          ∧ cutoff ≤ quickRatioQ x.data word.data
          ∧ cutoff ≤ seqRatioQ x.data word.data then
        some (seqRatioQ x.data word.data, x)
      else none) = [] := by
    rw [List.filterMap_eq_nil_iff]
    exact fun x hx =>
      if_neg (fun hc => absurd hc.2.2 (not_le.mpr (h x hx)))
  rw [hnil]
  rfl

/-- C6, counterexample. In the `apply_extra_stats_from_summary` merger the
token `"Jo"` has no exact cleaned-name match against a row set containing
only `"John Smith"`, and no candidate reaches similarity 0.6
(`ratio("John Smith", "Jo") = 1/3`), yet the stat line `"HR: Jo"` credits
one home run to the `"John Smith"` row through the word-substring
fallback — the count is attributed although no candidate is above the
fuzzy threshold. -/
theorem C6_counterexample :
    (pyLower (clean_name "Jo")
      ∉ (cleanedIndex
          [⟨"John Smith", 0, 0, 0, 0, 0, 0, 0, 0, 0, 0, 0⟩]).map Prod.fst) ∧
    seqRatioQ "John Smith".data "Jo".data < 3 / 5 ∧
    ((applySummaryLine [⟨"John Smith", 0, 0, 0, 0, 0, 0, 0, 0, 0, 0, 0⟩]
        ["HR:", "Jo"]).map (fun r => r.HomeRuns)) = [1] := by
  refine ⟨by decide, ?_, by decide⟩
  have h1 : sequenceMatches "John Smith".data "Jo".data = 2 := by decide
  have h2 : "John Smith".data.length = 10 := by decide
  have h3 : "Jo".data.length = 2 := by decide
  rw [seqRatioQ, h1, h2, h3]
  norm_num [calcRatioQ]

/-- C6, amended. In the difflib-based merger of `extract_batting`
(newsiteshitz), a token whose name matches no row exactly and whose
similarity against every row name is below the 0.6 cutoff is dropped: the
rows are returned unchanged (and the merger is a total function, so no
exception is raised). In the `apply_extra_stats_from_summary` variant the
fallback is word-substring containment instead of a similarity threshold,
and it can credit a token whose best similarity is below 0.6 (see the
counterexample). -/
theorem C6_amended (batting_stats : List NBatRow) (stat_label textRaw : String)
    (hexact : ∀ bd ∈ batting_stats,
      bd.PlayerName ≠ extractRawName (tokenTextOf textRaw))
    (hfuzz : ∀ bd ∈ batting_stats,
      seqRatioQ bd.PlayerName.data (extractRawName (tokenTextOf textRaw)).data
        < 3 / 5) :
    applyExtraBattingToken batting_stats stat_label textRaw = batting_stats := by
  have h1 : extractRawName (tokenTextOf textRaw)
      ∉ batting_stats.map (fun bd => bd.PlayerName) := by
    intro hmem
    obtain ⟨bd, hbd, he⟩ := List.mem_map.mp hmem
    exact hexact bd hbd he
  have h2 : get_close_matches1 (extractRawName (tokenTextOf textRaw))
      (batting_stats.map (fun bd => bd.PlayerName)) (3 / 5) = [] :=
    get_close_matches1_of_below _ _ _ (fun x hx => by
      obtain ⟨bd, hbd, rfl⟩ := List.mem_map.mp hx
      exact hfuzz bd hbd)
  simp only [applyExtraBattingToken]
  split
  · rfl
  · rw [h2]
    rfl

/-- Witness for `C6_amended`: the token `"Random Person"` against a single
row `"John Smith"` (`ratio = 4/23 < 0.6`) leaves the rows unchanged. -/
theorem C6_amended_witness :
    applyExtraBattingToken
        [⟨"", "", "", "", "", "John Smith", "", 0, 0, 0, 0, 0, 0, 0, 0, 0, 0, 0⟩]
        "HR" "Random Person"
      = [⟨"", "", "", "", "", "John Smith", "", 0, 0, 0, 0, 0, 0, 0, 0, 0, 0, 0⟩] := by
  apply C6_amended
  · intro bd hbd
    rw [List.mem_singleton] at hbd
    subst hbd
    decide
  · intro bd hbd
    rw [List.mem_singleton] at hbd
    subst hbd
    have he : extractRawName (tokenTextOf "Random Person") = "Random Person" := by
      decide
    rw [he]
    have h1 : sequenceMatches "John Smith".data "Random Person".data = 2 := by
      decide
    have h2 : "John Smith".data.length = 10 := by decide
    have h3 : "Random Person".data.length = 13 := by decide
    rw [seqRatioQ, h1, h2, h3]
    norm_num [calcRatioQ]

/-- C9: a player token with no trailing numeric count is credited with
count 1. The split of `"Jane Doe"` produces no count, and applying the
stat line `"HR: Jane Doe"` to a row set containing a `"Jane Doe"` row sets
that row's `HomeRuns` to 1 under both mergers. -/
theorem C9_default_count_one :
    splitTrailingCount "Jane Doe".data = ("Jane Doe".data, none) ∧
    ((applySummaryLine [⟨"Jane Doe", 0, 0, 0, 0, 0, 0, 0, 0, 0, 0, 0⟩]
        ["HR:", "Jane Doe"]).map (fun r => r.HomeRuns)) = [1] ∧
    ((applyExtraBattingToken
        [⟨"", "", "", "", "", "Jane Doe", "", 0, 0, 0, 0, 0, 0, 0, 0, 0, 0, 0⟩]
        "HR" "Jane Doe").map (fun bd => bd.HomeRuns)) = [1] := by
  refine ⟨by decide, by decide, by decide⟩

/-- Witness for `C8_rate_stat_zero_guards` at a concrete all-NULL player
aggregate. -/
theorem C8_rate_stat_zero_guards_witness :
    (api_player_line ⟨"Empty", none, none, none, none, none, none, none,
        none, none, none⟩).AVG = 0 ∧
    (api_player_line ⟨"Empty", none, none, none, none, none, none, none,
        none, none, none⟩).OBP = 0 ∧
    (api_player_line ⟨"Empty", none, none, none, none, none, none, none,
        none, none, none⟩).SLG = 0 ∧
    (api_player_line ⟨"Empty", none, none, none, none, none, none, none,
        none, none, none⟩).OPS = 0 ∧
    (api_player_line ⟨"Empty", none, none, none, none, none, none, none,
        none, none, none⟩).ISO = 0 :=
  (C8_rate_stat_zero_guards ⟨"Empty", none, none, none, none, none, none,
      none, none, none, none⟩).2.2 rfl rfl

end AcesAnalytics
